import Mathlib

/-!
# Verification of the UAV_demo packet simulator

A shallow embedding, in Lean 4, of the core data model and operations of the
UAV_demo repository (a discrete-time simulator of packet delivery over a mobile
ad-hoc network), together with theorems settling the specification claims.

Conventions used throughout the embedding:

* Python `float` values are modelled as exact rationals (`ℚ`), and the value
  `float('inf')` as `⊤` in `WithTop ℚ`.  Claims about IEEE-754 rounding are out
  of scope; the algorithms under scrutiny only add and compare these values.
* Comparisons of the form `math.sqrt e < c` with `0 ≤ c` are embedded as the
  equivalent exact comparison `e < c^2` on squared distances, so that no
  irrational square root is needed.
* Python dictionaries (which preserve insertion order) are modelled as
  association lists, and `collections.deque` as `List` with the head first.
* Calls into the random number generator (`random.uniform` behind the cached
  `_get_prr`, the randomized build times) and into transcendental geometry
  (`arccos` in `are_vectors_concurrent`, square roots inside expected-delay
  formulas) are modelled as explicit oracle parameters: the deterministic
  control flow around them is embedded faithfully, and every theorem
  quantifies over (or fixes) the oracle.
* Each definition names, in its doc comment, the Python function it embeds.
-/

namespace UAVDemo

/-- Substring test on strings (Python `a in b` for strings), via character
lists. -/
def strContains (hay needle : String) : Bool :=
  decide (needle.toList <:+: hay.toList)

/-- Prefix test on strings (Python `s.startswith(pre)`), via character
lists. -/
def strStartsWith (s pre : String) : Bool :=
  decide (pre.toList <+: s.toList)

/-- Ordered-dictionary lookup (`d.get(k)` / `d[k]`) on an association list. -/
def alookup {κ α : Type} [DecidableEq κ] : List (κ × α) → κ → Option α
  | [], _ => none
  | kv :: tl, k => if kv.1 = k then some kv.2 else alookup tl k

/-- A recorded packet event.  Embeds the dictionaries appended to
`Packet.event_history` in `backend/core/packet.py` (`Packet.add_event`):
fields `event`, `holder`, `hop`, `sim_time`, `info`. -/
structure Event where
  event : String
  holder : Nat
  hop : Nat
  sim_time : ℚ
  info : String
deriving DecidableEq, Repr

/-- The transported packet.  Embeds `Packet.__init__` in
`backend/core/packet.py`.  The `pid` field stands for the numeric part of the
generated id string `pkt{n}`.  The fields `concurrent_delay`,
`last_concurrent_penalty`, `true_total_delay` and `last_failure_log` are
attributes that `backend/mac_layer/mac.py` attaches to packets dynamically;
they are modelled as always-present fields holding their Python defaults.
`energy_consumed` is modelled from the spec: the energy accumulator methods
(`add_transmission_energy`, `add_retransmission_energy`) referenced by the MAC
layer are not among the provided sources; the spec data model lists
`energy_consumed` as a per-packet accumulator. -/
structure Packet where
  pid : Nat
  source_id : Nat
  destination_id : Nat
  creation_time : ℚ
  path : List Nat
  current_hop_index : Nat
  current_holder_id : Nat
  status : String
  retransmission_count : Nat
  actual_hops : List Nat
  per_hop_waits : List Nat
  event_history : List Event
  delivery_time : Option ℚ
  next_hop_positions : List (Nat × (ℚ × ℚ × ℚ))
  aoi : Option ℚ
  concurrent_delay : Nat
  last_concurrent_penalty : ℚ
  true_total_delay : ℚ
  energy_consumed : ℚ
  last_failure_log : Option (ℚ × String)
deriving DecidableEq, Repr

/-- A fresh packet as built by `Packet.__init__(source_id, destination_id,
creation_time)` in `backend/core/packet.py`. -/
def Packet.init (pid source_id destination_id : Nat) (creation_time : ℚ) : Packet :=
  { pid := pid
    source_id := source_id
    destination_id := destination_id
    creation_time := creation_time
    path := []
    current_hop_index := 0
    current_holder_id := source_id
    status := "pending"
    retransmission_count := 0
    actual_hops := [source_id]
    per_hop_waits := [0]
    event_history := []
    delivery_time := none
    next_hop_positions := []
    aoi := none
    concurrent_delay := 0
    last_concurrent_penalty := 0
    true_total_delay := 0
    energy_consumed := 0
    last_failure_log := none }

/-- `Packet.get_next_hop_id` in `backend/core/packet.py`: `path[index+1]` when
`path` is non-empty and `0 <= current_hop_index < len(path) - 1`, else
`None`. -/
def Packet.get_next_hop_id (p : Packet) : Option Nat :=
  if p.path ≠ [] ∧ p.current_hop_index < p.path.length - 1 then
    p.path.getD (p.current_hop_index + 1) 0
  else
    none

/-- `Packet.advance_hop(sim_time)` in `backend/core/packet.py`.  The Python
code indexes `self.path[self.current_hop_index]` after the increment (raising
`IndexError` when out of range); the embedding uses `List.getD`, which agrees
with the source whenever the index is in range — all theorems about it carry
that hypothesis. -/
def Packet.advance_hop (p : Packet) (sim_time : Option ℚ) : Packet :=
  let idx := p.current_hop_index + 1
  let holder := p.path.getD idx p.current_holder_id
  let base := { p with current_hop_index := idx
                       current_holder_id := holder
                       retransmission_count := 0 }
  if holder = p.destination_id then
    match sim_time with
    | some t =>
        { base with status := "delivered"
                    delivery_time := some (t - p.creation_time)
                    aoi := some (t - p.creation_time) }
    | none => { base with status := "delivered" }
  else
    base

/-- `Packet.record_next_hop_position(hop_id, x, y, z)` in
`backend/core/packet.py`: stores or overwrites the cached position for
`hop_id` (dictionary assignment, modelled as an association-list overwrite
that keeps the key in place when present and appends it otherwise). -/
def Packet.record_next_hop_position (p : Packet) (hop_id : Nat)
    (pos : ℚ × ℚ × ℚ) : Packet :=
  if (alookup p.next_hop_positions hop_id).isSome then
    { p with next_hop_positions :=
        p.next_hop_positions.map (fun kv => if kv.1 = hop_id then (hop_id, pos) else kv) }
  else
    { p with next_hop_positions := p.next_hop_positions ++ [(hop_id, pos)] }

/-- The whitelist of core event types in `Packet.add_event`
(`backend/core/packet.py`). -/
def coreEvents : List String :=
  ["true_hop_delay", "position_change", "reroute_success", "delivered",
   "retransmit", "collision", "prr_failure", "distance_interference",
   "max_retries", "waiting"]

/-- The two protocol-selection configuration flags that `Packet.add_event`
reads from `simulation_config` (`USE_CTMP_ROUTING_MODEL`,
`USE_PTP_ROUTING_MODEL`), plus the flags and constants the MAC layer reads.
`max_retransmissions` is `MAX_RETRANSMISSIONS`; the committed
`backend/simulation_config.py` sets it to 10 and selects `ROUTING_MODEL =
"PTP"`; theorems quantify over the record where the claim speaks of the
configured value. -/
structure Config where
  use_ctmp : Bool
  use_ptp : Bool
  use_dhytp : Bool
  max_retransmissions : Nat
  collect_energy_stats : Bool
  energy_unit_send : ℚ
  energy_unit_receive : ℚ
  energy_retransmission_penalty : ℚ
  default_time_increment : ℚ
deriving DecidableEq, Repr

/-- The values committed in `backend/simulation_config.py`. -/
def defaultConfig : Config :=
  { use_ctmp := false
    use_ptp := true
    use_dhytp := false
    max_retransmissions := 10
    collect_energy_stats := true
    energy_unit_send := 1/2
    energy_unit_receive := 1/10
    energy_retransmission_penalty := 3/2
    default_time_increment := 1/10 }

/-- `Packet.add_event(event_type, holder_id, hop_index, sim_time, extra_info)`
in `backend/core/packet.py`: drops every event type outside `coreEvents` whose
name does not start with `fail_`; drops the event when an entry with the same
`(event, sim_time, hop)` already exists; tags `reroute_success` events with the
active protocol; otherwise appends. -/
def Packet.add_event (cfg : Config) (p : Packet) (event_type : String)
    (holder_id hop_index : Nat) (sim_time : ℚ) (extra_info : String := "") : Packet :=
  if event_type ∉ coreEvents ∧ ¬ strStartsWith event_type "fail_" then
    p
  else if p.event_history.any (fun e =>
      e.event = event_type ∧ e.sim_time = sim_time ∧ e.hop = hop_index) then
    p
  else
    let info :=
      if event_type = "reroute_success" then
        let protocol_tag :=
          if cfg.use_ctmp then "[CMTP]"
          else if cfg.use_ptp then "[PTP]"
          else "[DIST]"
        if ¬ strContains extra_info protocol_tag then
          protocol_tag ++ " " ++ extra_info
        else extra_info
      else extra_info
    { p with event_history := p.event_history ++
        [{ event := event_type, holder := holder_id, hop := hop_index,
           sim_time := sim_time, info := info }] }

/-- Modelled from the spec: `Packet.add_transmission_energy` is called by
`backend/mac_layer/mac.py` but its definition is not among the provided
sources; the spec data model lists `energy_consumed` as the per-packet energy
accumulator, so the method is modelled as adding to it. -/
def Packet.add_transmission_energy (p : Packet) (e : ℚ) : Packet :=
  { p with energy_consumed := p.energy_consumed + e }

/-- Modelled from the spec: `Packet.add_retransmission_energy`, the
retransmission counterpart of `add_transmission_energy` (same missing
source). -/
def Packet.add_retransmission_energy (p : Packet) (e : ℚ) : Packet :=
  { p with energy_consumed := p.energy_consumed + e }

/-! ## MAC layer (`backend/mac_layer/mac.py`)

The mutable state of `MACLayer` that the queue-servicing and failure-handling
code touches: every UAV's FIFO transmit queue (`uav.tx_queue`, head first),
the per-receiver collision queues and distance-interference queues
(insertion-ordered dictionaries of deques of sender ids), and the current
simulated time.  Counters that only feed logging (`total_hop_attempts`) are
carried for fidelity. -/

structure MacState where
  txQueues : List (Nat × List Packet)
  collisionQueues : List (Nat × List Nat)
  distanceInterferenceQueues : List (Nat × List Nat)
  sim_time : ℚ
  total_hop_attempts : Nat
deriving DecidableEq, Repr

/-- Ordered-dictionary update: overwrite the value at `k` in place, appending
the key when absent (Python dict assignment). -/
def assocSet {κ α : Type} [DecidableEq κ] (l : List (κ × α)) (k : κ) (v : α) :
    List (κ × α) :=
  if (alookup l k).isSome then
    l.map (fun kv => if kv.1 = k then (k, v) else kv)
  else
    l ++ [(k, v)]

/-- Ordered-dictionary deletion (`del d[k]`). -/
def assocDrop {κ α : Type} [DecidableEq κ] (l : List (κ × α)) (k : κ) :
    List (κ × α) :=
  l.filter (fun kv => kv.1 ≠ k)

/-- The transmit queue of a UAV (empty when the UAV is unknown). -/
def MacState.txQueue (st : MacState) (uid : Nat) : List Packet :=
  (alookup st.txQueues uid).getD []

/-- Replace a UAV's transmit queue. -/
def MacState.setTxQueue (st : MacState) (uid : Nat) (q : List Packet) : MacState :=
  { st with txQueues := assocSet st.txQueues uid q }

/-- `sender.tx_queue.popleft()`. -/
def MacState.popTxHead (st : MacState) (uid : Nat) : MacState :=
  st.setTxQueue uid (st.txQueue uid).tail

/-- Overwrite the head packet of a UAV's queue with its mutated value (Python
mutates the shared object in place; the value model writes it back). -/
def MacState.setTxHead (st : MacState) (uid : Nat) (p : Packet) : MacState :=
  match st.txQueue uid with
  | [] => st
  | _ :: t => st.setTxQueue uid (p :: t)

/-- `receiver.add_packet_to_queue(packet)` in `backend/core/uav.py`:
`tx_queue.append(packet)`. -/
def MacState.addPacketToQueue (st : MacState) (uid : Nat) (p : Packet) : MacState :=
  st.setTxQueue uid (st.txQueue uid ++ [p])

/-- `MACLayer._log_failure(packet, reason)`: classifies the reason, and
deduplicates consecutive identical failure logs through the
`packet.last_failure_log` marker; it never touches `event_history` or the
packet status (printing elided). -/
def logFailure (sim_time : ℚ) (p : Packet) (reason : String) : Packet :=
  let info :=
    if strContains reason "Collision" then "Collision"
    else if strContains reason "Distance_Interference" then "Distance_Interference"
    else if strContains reason "PRR" then "PRR"
    else reason
  if p.last_failure_log = some (sim_time, info) then p
  else { p with last_failure_log := some (sim_time, info) }

/-- `MACLayer._handle_terminal_failure(sender, packet, reason)`: pops the head
of the sender's transmit queue and stamps the packet status
`failed_<reason>`.  No event is appended to `event_history`.  Returns the
updated MAC state together with the final value of the (now dequeued) packet
object. -/
def handleTerminalFailure (st : MacState) (senderId : Nat) (p : Packet)
    (reason : String) : MacState × Packet :=
  let st := st.popTxHead senderId
  (st, { p with status := "failed_" ++ reason })

/-- The reason classification of `MACLayer._handle_failure`: the
`new_status` each substring class maps to. -/
def failureStatus (reason : String) : String :=
  if strContains reason "Distance_Interference" then "distance_interference"
  else if strContains reason "Collision" then "collision"
  else if strContains reason "PRR" then "prr_fail"
  else if strContains reason "No_Receiver" ∨ strContains reason "No_Neighbors" ∨
          strContains reason "Route_Recovery_Failed" then "routing_fail"
  else "failed_" ++ reason

/-- The event-info string of `MACLayer._handle_failure`'s per-class
`add_event` call (the event type is `transmission_fail` in every class). -/
def failureEventInfo (reason : String) : String :=
  if strContains reason "Distance_Interference" then "距离干扰失败: " ++ reason
  else if strContains reason "Collision" then "碰撞失败: " ++ reason
  else if strContains reason "PRR" then "PRR失败: " ++ reason
  else if strContains reason "No_Receiver" ∨ strContains reason "No_Neighbors" ∨
          strContains reason "Route_Recovery_Failed" then "路由失败: " ++ reason
  else "其他失败: " ++ reason

/-- `MACLayer._handle_failure(sender, packet, reason)`.  `cmtpBuilding` stands
for the condition `isinstance(self.routing_model, CMTPRoutingModel) and
self.routing_model.tree_construction_started and not
self.routing_model.tree_ready` tested at the top of the function.  `p` is the
head packet of `senderId`'s transmit queue (which is how every call site
invokes it); the value model writes the mutated packet back to that position.
The numeric parts of the log-string arguments to `add_event` are elided (they
never influence state: deduplication keys on `(event, sim_time, hop)`).
Returns the updated state and the final packet value. -/
def handleFailure (cfg : Config) (cmtpBuilding : Bool) (st : MacState)
    (senderId : Nat) (p : Packet) (reason : String) : MacState × Packet :=
  if cmtpBuilding then
    let p := p.add_event cfg "waiting_tree_build" senderId p.current_hop_index
      st.sim_time "等待CMTP树构建完成"
    (st.setTxHead senderId p, p)
  else if strContains reason "Waiting_Tree_Construction" then
    (st, p)
  else
    let p :=
      if reason ≠ "Distance_Interference_Queue" ∧ reason ≠ "Collision_Queue" then
        { p with retransmission_count := p.retransmission_count + 1 }
      else p
    let p := p.add_event cfg "transmission_fail" senderId p.current_hop_index
      st.sim_time (failureEventInfo reason)
    let new_status := failureStatus reason
    let p := { p with status := new_status }
    let p := logFailure st.sim_time p reason
    if p.retransmission_count ≥ cfg.max_retransmissions then
      handleTerminalFailure (st.setTxHead senderId p) senderId p
        ("Max_Retries(" ++ reason ++ ")")
    else
      (st.setTxHead senderId p, p)

/-- The retry counter `_handle_failure` leaves on the packet: incremented for
every reason except the two queue-servicing markers (whose retries were
already counted when the queue was formed). -/
def handleFailureCount (p : Packet) (reason : String) : Nat :=
  if reason ≠ "Distance_Interference_Queue" ∧ reason ≠ "Collision_Queue" then
    p.retransmission_count + 1
  else p.retransmission_count

/-- The packet value `_handle_failure` produces before its terminal-failure
check (the `transmission_fail` event it logs is discarded by the `add_event`
whitelist, so only the counter, the status and the failure-log marker
change). -/
def handleFailurePacket (st : MacState) (p : Packet)
    (reason : String) : Packet :=
  logFailure st.sim_time
    { p with retransmission_count := handleFailureCount p reason
             status := failureStatus reason } reason

/-- `MACLayer._handle_success(sender, receiver, packet)`: records receive
energy, pops the sender id from the head of the matching collision queue, pops
the packet from the sender's queue, logs a `success` event (which the
`add_event` whitelist silently drops), advances the packet one hop, appends
the new holder to `actual_hops`, opens a fresh wait counter, accumulates
`true_total_delay`, and either marks delivery or enqueues the packet at the
receiver.  `p` is the head of `senderId`'s queue. -/
def handleSuccess (cfg : Config) (st : MacState) (senderId receiverId : Nat)
    (p : Packet) : MacState × Packet :=
  let p := if cfg.collect_energy_stats then
             p.add_transmission_energy cfg.energy_unit_receive
           else p
  let receiver_id := p.get_next_hop_id
  let st :=
    match receiver_id with
    | some rid =>
        match alookup st.collisionQueues rid with
        | some (s :: rest) =>
            if s = senderId then
              { st with collisionQueues := assocSet st.collisionQueues rid rest }
            else st
        | _ => st
    | none => st
  let st := st.popTxHead senderId
  let p := p.add_event cfg "success" p.current_holder_id p.current_hop_index st.sim_time
  let p := p.advance_hop (some st.sim_time)
  let p := { p with actual_hops := p.actual_hops ++ [p.current_holder_id] }
  let p := { p with per_hop_waits := p.per_hop_waits ++ [0] }
  let p : Packet :=
    if p.per_hop_waits.length ≥ 2 then
      let time_increment := cfg.default_time_increment
      let wait_steps : ℚ := Nat.cast (p.per_hop_waits.getD (p.per_hop_waits.length - 2) 0)
      let concurrent_penalty := p.last_concurrent_penalty
      let concurrent_penalty_steps : ℤ := ⌈concurrent_penalty / time_increment⌉
      let p :=
        if cfg.use_ptp ∨ cfg.use_ctmp then
          { p with true_total_delay := p.true_total_delay + wait_steps * time_increment }
        else
          { p with true_total_delay := p.true_total_delay + wait_steps * time_increment +
              (concurrent_penalty_steps : ℚ) * time_increment }
      let p := p.add_event cfg "true_hop_delay" p.current_holder_id p.current_hop_index
        st.sim_time "Add wait_steps and concurrent penalty"
      { p with last_concurrent_penalty := 0 }
    else p
  if p.current_holder_id = p.destination_id then
    let p := { p with status := "delivered" }
    let p := p.add_event cfg "delivered" p.current_holder_id p.current_hop_index st.sim_time
    let p := if cfg.collect_energy_stats then
               p.add_transmission_energy cfg.energy_unit_receive
             else p
    (st, p)
  else
    let p := if cfg.collect_energy_stats then
               p.add_transmission_energy cfg.energy_unit_receive
             else p
    (st.addPacketToQueue receiverId p, p)

/-- Python truthiness of the pair returned by
`MACLayer._attempt_transmission`: the function always returns a two-element
tuple (`(True, None)` or `(False, reason)`), and in Python every non-empty
tuple is truthy — including `(False, reason)`. -/
def pyTuple2Truthy (_t : Bool × Option String) : Bool := true

/-- `MACLayer._process_distance_interference_queues`.  The outcome of
`self._attempt_transmission(sender, receiver, ...)` for a given
(sender, receiver) pair is supplied by the `attempt` oracle, because that
function's verdict depends on the random PRR roll; the queue-servicing控制
flow around it is embedded exactly.  In particular the source binds the
*tuple* returned by `_attempt_transmission` to `is_successful` without
unpacking it, so the `if is_successful:` test goes through `pyTuple2Truthy`.
Iteration follows `list(self.distance_interference_queues.items())`: a
snapshot of the keys, with the live queue re-read per key. -/
def processDistanceInterferenceQueues (cfg : Config) (cmtpBuilding : Bool)
    (attempt : Nat → Nat → Bool × Option String) (st : MacState) : MacState :=
  (st.distanceInterferenceQueues.map Prod.fst).foldl (fun st rid =>
    match alookup st.distanceInterferenceQueues rid with
    | none => st
    | some [] => st
    | some (senderId :: _) =>
        let st :=
          match st.txQueue senderId with
          | [] => st
          | p :: _ =>
              let res := attempt senderId rid
              if pyTuple2Truthy res then
                let st := (handleSuccess cfg st senderId rid p).1
                let q := (alookup st.distanceInterferenceQueues rid).getD []
                { st with distanceInterferenceQueues :=
                    assocSet st.distanceInterferenceQueues rid q.tail }
              else
                (handleFailure cfg cmtpBuilding st senderId p
                  "Distance_Interference_Queue").1
        match alookup st.distanceInterferenceQueues rid with
        | some [] => { st with distanceInterferenceQueues :=
                        assocDrop st.distanceInterferenceQueues rid }
        | _ => st) st

/-- `MACLayer._process_collision_queues`.  Same shape as the
distance-interference processor (and the same unpacking slip on the tuple
returned by `_attempt_transmission`); the explicit `queue.popleft()` in the
success branch is commented out in the source — the head is popped inside
`_handle_success` instead. -/
def processCollisionQueues (cfg : Config) (cmtpBuilding : Bool)
    (attempt : Nat → Nat → Bool × Option String) (st : MacState) : MacState :=
  (st.collisionQueues.map Prod.fst).foldl (fun st rid =>
    match alookup st.collisionQueues rid with
    | none => st
    | some [] => st
    | some (senderId :: _) =>
        let st :=
          match st.txQueue senderId with
          | [] => st
          | p :: _ =>
              let res := attempt senderId rid
              if pyTuple2Truthy res then
                (handleSuccess cfg st senderId rid p).1
              else
                (handleFailure cfg cmtpBuilding st senderId p "Collision_Queue").1
        match alookup st.collisionQueues rid with
        | some [] => { st with collisionQueues := assocDrop st.collisionQueues rid }
        | _ => st) st

/-! ## Simulation manager and path finder (`backend/simulation_manager.py`) -/

/-- A UAV as the routing code sees it: id, position, velocity
(`backend/core/uav.py`). -/
structure UAV where
  uid : Nat
  x : ℚ
  y : ℚ
  z : ℚ
  vx : ℚ
  vy : ℚ
deriving DecidableEq, Repr

/-- Squared 3-D Euclidean distance.  Every comparison the sources make against
a distance is of the form `math.sqrt dsq ⋈ c` with `0 ≤ c`, which is embedded
as the exact equivalent `dsq ⋈ c^2`. -/
def dist2 (u v : UAV) : ℚ :=
  (u.x - v.x) ^ 2 + (u.y - v.y) ^ 2 + (u.z - v.z) ^ 2

/-- Squared 2-D Euclidean distance (the PTP grid model works in the plane). -/
def dist2xy (u v : UAV) : ℚ :=
  (u.x - v.x) ^ 2 + (u.y - v.y) ^ 2

/-- `UAV_COMMUNICATION_RANGE` from `backend/simulation_config.py`. -/
def uavCommunicationRange : ℚ := 100

/-- `uav_map.get(uid)` — the UAV with a given id. -/
def uavById (uavs : List UAV) (uid : Nat) : Option UAV :=
  uavs.find? (fun u => u.uid = uid)

/-- `SimulationManager._build_uav_graph`: adjacency dictionary over the live
UAV list; `uav2.id` is appended to `uav_graph[uav1.id]` exactly when the two
(index-distinct) UAVs are within `UAV_COMMUNICATION_RANGE` (squared
comparison, `dist_sq <= RANGE ** 2`).  The dictionary-builder form below
coincides with the source's nested loop whenever UAV ids are distinct (which
theorems assume where it matters). -/
def buildUavGraph (uavs : List UAV) : List (Nat × List Nat) :=
  uavs.enum.map (fun iu =>
    (iu.2.uid, uavs.enum.filterMap (fun jv =>
      if jv.1 ≠ iu.1 ∧ dist2 iu.2 jv.2 ≤ uavCommunicationRange ^ 2 then
        some jv.2.uid
      else none)))

/-- `self.uav_graph.get(current_id, [])`. -/
def adjOf (graph : List (Nat × List Nat)) (v : Nat) : List Nat :=
  (alookup graph v).getD []

/-- One entry of the Dijkstra priority queue: the tuple
`(dist, entry_count, node_id, path)` pushed by
`SimulationManager.get_shortest_path`. -/
structure DijkEntry where
  d : WithTop ℚ
  cnt : Nat
  node : Nat
  path : List Nat
deriving DecidableEq, Repr

/-- Strict comparison of heap keys: Python compares the pushed tuples
lexicographically, and since every pushed tuple carries a distinct
`entry_count`, the order is decided by `(dist, entry_count)`. -/
def keyLt (a b : DijkEntry) : Prop :=
  a.d < b.d ∨ (a.d = b.d ∧ a.cnt < b.cnt)

instance : DecidablePred (fun ab : DijkEntry × DijkEntry => keyLt ab.1 ab.2) :=
  fun _ => by unfold keyLt; infer_instance

instance (a b : DijkEntry) : Decidable (keyLt a b) := by unfold keyLt; infer_instance

/-- The minimum-key entry among `e :: l` (`heapq` pops the least tuple). -/
def findMinEntry (e : DijkEntry) (l : List DijkEntry) : DijkEntry :=
  l.foldl (fun acc x => if keyLt x acc then x else acc) e

/-- Pop the minimum-key entry (`heapq.heappop`), returning it and the
remaining entries. -/
def popMin (pq : List DijkEntry) : Option (DijkEntry × List DijkEntry) :=
  match pq with
  | [] => none
  | e :: es =>
      let m := findMinEntry e es
      some (m, pq.erase m)

/-- The relaxation of one neighbour `nb` of the popped entry `e`
(`get_shortest_path` loop body): `new_dist = dist + edge_weight`; push and
update `distances[nb]` only on strict improvement, incrementing the
monotone `entry_count` first. -/
def relaxStep (w : Nat → Nat → WithTop ℚ) (e : DijkEntry)
    (acc : (Nat → WithTop ℚ) × Nat × List DijkEntry) (nb : Nat) :
    (Nat → WithTop ℚ) × Nat × List DijkEntry :=
  let dist := acc.1
  let counter := acc.2.1
  let pq := acc.2.2
  let new := e.d + w e.node nb
  if new < dist nb then
    (fun x => if x = nb then new else dist x, counter + 1,
     pq ++ [⟨new, counter + 1, nb, e.path ++ [nb]⟩])
  else acc

/-- Relax every neighbour of the popped node, in adjacency-list order. -/
def relaxAll (w : Nat → Nat → WithTop ℚ) (e : DijkEntry) (ns : List Nat)
    (dist : Nat → WithTop ℚ) (counter : Nat) (pq : List DijkEntry) :
    (Nat → WithTop ℚ) × Nat × List DijkEntry :=
  ns.foldl (relaxStep w e) (dist, counter, pq)

/-- The Dijkstra main loop of `SimulationManager.get_shortest_path`, with an
explicit fuel parameter standing for the (always sufficient in Python)
iteration budget: `none` means the fuel ran out, `some none` means the queue
drained without reaching the target (`"No path found."`), `some (some (p, d))`
means the target was popped with path `p` at total weight `d`.  Stale entries
(`dist > distances[current_id]`) are skipped; the target test happens on pop,
before relaxation. -/
def dijkstraLoop (w : Nat → Nat → WithTop ℚ) (adj : Nat → List Nat) (target : Nat) :
    Nat → (Nat → WithTop ℚ) → Nat → List DijkEntry →
    Option (Option (List Nat × WithTop ℚ))
  | 0, _, _, _ => none
  | fuel + 1, dist, counter, pq =>
      match popMin pq with
      | none => some none
      | some (e, rest) =>
          if dist e.node < e.d then
            dijkstraLoop w adj target fuel dist counter rest
          else if e.node = target then
            some (some (e.path, e.d))
          else
            let s := relaxAll w e (adj e.node) dist counter rest
            dijkstraLoop w adj target fuel s.1 s.2.1 s.2.2

/-- The edge-weight selection of `get_shortest_path` (its inner loop, lines
choosing between the routing model and plain geometry): when a routing model
is configured the weight is its `get_link_base_delay` (for `DHyTP`, the inner
CMTP model's); otherwise the geometric distance.  Both cost functions involve
randomized PRR draws or square roots, so they are supplied as oracles. -/
def edgeWeightOf (routingDelay : Option (UAV → UAV → WithTop ℚ))
    (geomDist : UAV → UAV → WithTop ℚ) (uavs : List UAV) (a b : Nat) : WithTop ℚ :=
  match uavById uavs a, uavById uavs b with
  | some u1, some u2 =>
      match routingDelay with
      | some f => f u1 u2
      | none => geomDist u1 u2
  | _, _ => ⊤

/-- `SimulationManager.get_shortest_path(source, target)`: guard clauses for
an inactive simulation, unknown endpoints and the trivial source-equals-target
case, then Dijkstra over `self.uav_graph` with edge weights `w`.  The numeric
formatting inside the success message is elided (`"Path found."`). -/
def getShortestPath (uavs : List UAV) (graph : List (Nat × List Nat))
    (w : Nat → Nat → WithTop ℚ) (fuel : Nat) (source target : Nat) :
    Option (Option (List Nat) × String) :=
  if uavs.isEmpty then some (none, "Simulation not active.")
  else if ¬ (uavs.map UAV.uid).contains source ∨ ¬ (uavs.map UAV.uid).contains target then
    some (none, "Source/Target not found.")
  else if source = target then some (some [source], "Source and target are the same.")
  else
    match dijkstraLoop w (adjOf graph) target fuel
        (fun v => if v = source then 0 else ⊤) 0
        [{ d := 0, cnt := 0, node := source, path := [source] }] with
    | none => none
    | some none => some (none, "No path found.")
    | some (some (p, _)) => some (some p, "Path found.")

/-- A walk through the adjacency structure: non-empty, starts at `s`, ends at
`t`, with every consecutive pair an edge. -/
def IsWalk (adj : Nat → List Nat) (s t : Nat) (q : List Nat) : Prop :=
  q.head? = some s ∧ q.getLast? = some t ∧ q.Chain' (fun a b => b ∈ adj a)

/-- Total weight of a walk: the sum of the edge weights along consecutive
pairs (the quantity Dijkstra accumulates along its paths). -/
def walkWeight (w : Nat → Nat → WithTop ℚ) : List Nat → WithTop ℚ
  | [] => 0
  | [_] => 0
  | a :: b :: rest => w a b + walkWeight w (b :: rest)

/-- Non-strict heap-key comparison (see `keyLt`). -/
def keyLe (a b : DijkEntry) : Prop :=
  a.d < b.d ∨ (a.d = b.d ∧ a.cnt ≤ b.cnt)

/-- The Dijkstra loop invariant, over a ghost settled set `S`: every queue
entry carries a real walk from the source of exactly its key weight, bounding
its node's tentative distance; every finite tentative distance is settled or
represented on the queue; settled distances are optimal, relaxed along every
outgoing edge, and no larger than any queue key; the source is at distance
zero and the target is unsettled. -/
structure DijkInv (w : Nat → Nat → WithTop ℚ) (adj : Nat → List Nat)
    (source target : Nat) (S : List Nat) (dist : Nat → WithTop ℚ)
    (pq : List DijkEntry) : Prop where
  entries : ∀ e ∈ pq, IsWalk adj source e.node e.path ∧
    walkWeight w e.path = e.d ∧ dist e.node ≤ e.d
  frontier : ∀ v, dist v < ⊤ → v ∈ S ∨ ∃ e ∈ pq, e.node = v ∧ e.d = dist v
  settled_opt : ∀ u ∈ S, ∀ q, IsWalk adj source u q → dist u ≤ walkWeight w q
  settled_relaxed : ∀ u ∈ S, ∀ x ∈ adj u, dist x ≤ dist u + w u x
  settled_le_queue : ∀ u ∈ S, ∀ e ∈ pq, dist u ≤ e.d
  dist_source : dist source = 0
  target_unsettled : target ∉ S

/-- The mutable simulation state that `SimulationManager.initiate_data_transfer`
touches: the UAV list, the live proximity graph, the global packet list, the
per-UAV transmit queues and the monotone packet id counter
(`Packet._id_counter`). -/
structure SimState where
  uavs : List UAV
  simulation_time : ℚ
  packets_in_network : List Packet
  uav_graph : List (Nat × List Nat)
  txQueues : List (Nat × List Packet)
  packet_id_counter : Nat
deriving DecidableEq, Repr

/-- The transmit queue of a UAV in the simulation state. -/
def SimState.txQueue (st : SimState) (uid : Nat) : List Packet :=
  (alookup st.txQueues uid).getD []

/-- `source_uav.add_packet_to_queue(packet)`. -/
def SimState.addPacketToQueue (st : SimState) (uid : Nat) (p : Packet) : SimState :=
  { st with txQueues := assocSet st.txQueues uid (st.txQueue uid ++ [p]) }

/-- The body of the packet-creation loop in `initiate_data_transfer`: create a
packet with the computed path, record the initial position of every planned
next hop, log the protocol-specific creation event (dropped by the `add_event`
whitelist), and register the packet in the network list and the source
queue. -/
def createOnePacket (cfg : Config) (source_id destination_id : Nat)
    (path_ids : List Nat) (st : SimState) : SimState × Packet :=
  let pid := st.packet_id_counter + 1
  let st := { st with packet_id_counter := pid }
  let p := Packet.init pid source_id destination_id st.simulation_time
  let p := { p with path := path_ids, status := "in_transit" }
  let p := path_ids.tail.foldl (fun p nid =>
    match uavById st.uavs nid with
    | some u => p.record_next_hop_position nid (u.x, u.y, u.z)
    | none => p) p
  let p :=
    if cfg.use_dhytp then
      p.add_event cfg "dhytp_init" source_id 0 st.simulation_time "DHyTP初始化"
    else if cfg.use_ctmp then
      p.add_event cfg "cmtp_init" source_id 0 st.simulation_time "CMTP初始化"
    else p
  let st := { st with packets_in_network := st.packets_in_network ++ [p] }
  let st := st.addPacketToQueue source_id p
  (st, p)

/-- One iteration of the packet-creation loop of `initiate_data_transfer`:
create the next packet and append it to the created list (the loop index is
unused). -/
def createStep (cfg : Config) (source_id destination_id : Nat)
    (path_ids : List Nat) (acc : SimState × List Packet) (_ : Nat) :
    SimState × List Packet :=
  let r := createOnePacket cfg source_id destination_id path_ids acc.1
  (r.1, acc.2 ++ [r.2])

/-- `SimulationManager.initiate_data_transfer(source_id, destination_id,
packet_count)`: computes the path with `get_shortest_path` and either returns
the error immediately (creating nothing and leaving the state untouched) or
creates exactly `packet_count` packets carrying that path.  The outer `none`
propagates fuel exhaustion of the embedded Dijkstra; the DHyTP tree-kickoff
branch only mutates routing-model state, which is outside this state record
(its packet-visible effect, the `dhytp_init` event, is embedded in
`createOnePacket`).  The count inside the success message is elided. -/
def initiateDataTransfer (cfg : Config) (w : Nat → Nat → WithTop ℚ) (fuel : Nat)
    (source_id destination_id : Nat) (packet_count : Nat) (st : SimState) :
    Option ((List Packet × String) × SimState) :=
  match getShortestPath st.uavs st.uav_graph w fuel source_id destination_id with
  | none => none
  | some (none, msg) => some (([], msg), st)
  | some (some path_ids, _) =>
      match uavById st.uavs source_id with
      | none => some (([], "Source UAV not found."), st)
      | some _ =>
          let result := (List.range packet_count).foldl
            (createStep cfg source_id destination_id path_ids) (st, [])
          some ((result.2, "packet(s) created."), result.1)

/-! ## Congestion-aware tree protocols
(`backend/protocols/mtp_protocol.py`; the CMTP variant in
`backend/protocols/cmtp_protocol.py` is the same code without the
tree-pruning hooks — shared helpers below cite both files). -/

/-- `MTPRoutingModel.MERGE_DISTANCE_THRESHOLD` (= the CMTP constant). -/
def mergeDistanceThreshold : ℚ := 30

/-- The randomness- and geometry-dependent subroutines of the tree protocols,
supplied as oracles: `prr` stands for the cached `random.uniform` draws of
`_get_prr`; `inEllipse node source dest` for
`UAV.is_within_ellipse_region` (square-root and eccentricity geometry);
`buildTime` for the randomized `_calculate_realistic_build_time` /
`_generate_random_build_time` result; `selfHeal` for
`self_heal_virtual_trees`, whose parent re-selection runs on random PRR draws
and IEEE-754 infinity arithmetic — it rewrites only the virtual trees and the
`last_etx_to_root` memo, which is all its Python counterpart writes (besides
`uav.etx_to_root`, which nothing embedded reads). -/
structure TreeOracles where
  prr : UAV → UAV → ℚ
  inEllipse : UAV → UAV → UAV → Bool
  buildTime : ℚ
  selfHeal : List (Nat × List (Nat × Option Nat)) → List ((Nat × Nat) × WithTop ℚ) →
    List (Nat × List (Nat × Option Nat)) × List ((Nat × Nat) × WithTop ℚ)

/-- `get_link_base_delay(uav1, uav2)` with `uav2` given (both protocol files):
the single-hop ETX `1 / PRR`, infinite when the PRR is zero. -/
def getLinkBaseDelay (o : TreeOracles) (u1 u2 : UAV) : WithTop ℚ :=
  if o.prr u1 u2 = 0 then ⊤ else (((1 : ℚ) / o.prr u1 u2 : ℚ) : WithTop ℚ)

/-- `_get_neighbors(uav)` (both protocol files): every other UAV within
communication range (`dist <= UAV_COMMUNICATION_RANGE`, squared form). -/
def getNeighbors (uavs : List UAV) (u : UAV) : List UAV :=
  uavs.filter (fun v => v.uid ≠ u.uid ∧ dist2 u v ≤ uavCommunicationRange ^ 2)

/-- The inner iteration of `_group_roots_by_distance` (both protocol files):
a destination at an index other than the seed's and not yet used joins the
seed's group when strictly within `MERGE_DISTANCE_THRESHOLD` of the *seed*
(`dist < 30`, squared form). -/
def groupInnerStep (uavs : List UAV) (i : Nat) (uav1 : UAV)
    (acc2 : List Nat × List Nat) (jid : Nat × Nat) : List Nat × List Nat :=
  if jid.1 = i ∨ jid.2 ∈ acc2.2 then acc2
  else
    match uavById uavs jid.2 with
    | none => acc2
    | some uav2 =>
        if dist2 uav1 uav2 < mergeDistanceThreshold ^ 2 then
          (acc2.1 ++ [jid.2], acc2.2 ++ [jid.2])
        else acc2

/-- The outer iteration of `_group_roots_by_distance`: an unused destination
seeds a group and absorbs the later unused destinations near it (see
`groupInnerStep`). -/
def groupOuterStep (uavs : List UAV) (dests : List Nat)
    (acc : List (List Nat) × List Nat) (iid : Nat × Nat) :
    List (List Nat) × List Nat :=
  if iid.2 ∈ acc.2 then acc
  else
    match uavById uavs iid.2 with
    | none => acc
    | some uav1 =>
        let inner := dests.enum.foldl (groupInnerStep uavs iid.1 uav1)
          ([iid.2], acc.2)
        (acc.1 ++ [inner.1], inner.2 ++ [iid.2])

/-- `_group_roots_by_distance(destination_ids)` (both protocol files): scan
the destinations in order; each not-yet-used id seeds a group and absorbs
every later unused destination strictly within `MERGE_DISTANCE_THRESHOLD` of
the seed.  Index pairs with `i == j` are skipped, and `used` is live during
the inner scan, as in the source.  A destination id without a UAV would raise
`KeyError` in Python; the embedding skips it, and theorems assume all
destinations resolve. -/
def groupRootsByDistance (uavs : List UAV) (dests : List Nat) : List (List Nat) :=
  (dests.enum.foldl (groupOuterStep uavs dests) ([], [])).1

/-- What a group produced by `_group_roots_by_distance` is: a destination
seed followed by destinations strictly within the merge threshold of that
*seed* (not pairwise, and with no centroid involved). -/
def seedGroup (uavs : List UAV) (dl : List Nat) (g : List Nat) : Prop :=
  ∃ seed rest, g = seed :: rest ∧ seed ∈ dl ∧
    ∀ m ∈ rest, m ∈ dl ∧ ∃ u1 u2,
      uavById uavs seed = some u1 ∧ uavById uavs m = some u2 ∧
      dist2 u1 u2 < mergeDistanceThreshold ^ 2

/-- One pass of the BFS body of `_build_tree_for_root`: for every in-range
neighbour of the dequeued node not yet in the tree, attach it to the neighbour
of *its own* with the strictly smallest single-hop ETX (first minimum wins),
then enqueue it. -/
def buildTreeVisit (o : TreeOracles) (uavs : List UAV) (cu : UAV)
    (acc : List Nat × List Nat × List (Nat × Option Nat)) :
    List Nat × List Nat × List (Nat × Option Nat) :=
  (getNeighbors uavs cu).foldl (fun acc nb =>
    let queue := acc.1
    let visited := acc.2.1
    let tree := acc.2.2
    if nb.uid ∈ visited then acc
    else
      let best := (getNeighbors uavs nb).foldl
        (fun (best : WithTop ℚ × Option UAV) parent =>
          let etx := getLinkBaseDelay o nb parent
          if etx < best.1 then (etx, some parent) else best) (⊤, none)
      match best.2 with
      | some bp => (queue ++ [nb.uid], visited ++ [nb.uid], tree ++ [(nb.uid, some bp.uid)])
      | none => acc) acc

/-- The BFS work-list loop of `_build_tree_for_root`, with fuel (each
iteration dequeues one node; nodes are enqueued at most once, so
`uavs.length + 1` fuel always suffices). -/
def buildTreeLoop (o : TreeOracles) (uavs : List UAV) :
    Nat → List Nat → List Nat → List (Nat × Option Nat) → List (Nat × Option Nat)
  | 0, _, _, tree => tree
  | _ + 1, [], _, tree => tree
  | fuel + 1, current :: qrest, visited, tree =>
      match uavById uavs current with
      | none => buildTreeLoop o uavs fuel qrest visited tree
      | some cu =>
          let acc := buildTreeVisit o uavs cu (qrest, visited, tree)
          buildTreeLoop o uavs fuel acc.1 acc.2.1 acc.2.2

/-- `_build_tree_for_root(root_id)` (both protocol files): BFS from the root,
producing a `node → parent` map with the root parentless. -/
def buildTreeForRoot (o : TreeOracles) (uavs : List UAV) (root_id : Nat) :
    List (Nat × Option Nat) :=
  buildTreeLoop o uavs (uavs.length + 1) [root_id] [root_id] [(root_id, none)]

/-- `_merge_tree(tree1, tree2)` (both protocol files): union of the two
parent maps; on a clash, keep the parent with the strictly smaller single-hop
ETX.  UAV ids are positive in Python (the id counter pre-increments), so the
source's truthiness test on a parent id is `Option.isSome` here. -/
def mergeTree (o : TreeOracles) (uavs : List UAV)
    (tree1 tree2 : List (Nat × Option Nat)) : List (Nat × Option Nat) :=
  tree2.foldl (fun merged np =>
    match alookup merged np.1 with
    | none => merged ++ [np]
    | some cur =>
        let uav := uavById uavs np.1
        let p1 := cur.bind (uavById uavs)
        let p2 := np.2.bind (uavById uavs)
        let etx1 : WithTop ℚ :=
          match uav, p1 with
          | some u, some q => getLinkBaseDelay o u q
          | _, _ => ⊤
        let etx2 : WithTop ℚ :=
          match uav, p2 with
          | some u, some q => getLinkBaseDelay o u q
          | _, _ => ⊤
        if etx2 < etx1 then assocSet merged np.1 np.2 else merged) tree1

/-- The protocol state shared by the MTP and CMTP classes (`__init__` of
both files).  Pruning-only bookkeeping that nothing embedded reads
(`ellipse_regions`, `pruned_nodes`, `pruning_statistics`,
`last_etx_update_time`) is not carried. -/
structure TreeProtocolState where
  tree_construction_started : Bool
  destination_list : List Nat
  tree_build_progress : ℚ
  tree_build_start_time : Option ℚ
  last_update_time : Option ℚ
  min_tree_build_time : Option ℚ
  build_time_calculated : Bool
  tree_ready : Bool
  virtual_trees : Option (List (Nat × List (Nat × Option Nat)))
  root_nodes : Option (List Nat)
  root_groups : Option (List (List Nat))
  last_etx_to_root : List ((Nat × Nat) × WithTop ℚ)
  congestion_links : List ((Nat × Nat) × List Nat)
  virtual_nodes_history : List Nat
  accumulated_tree_creation_energy : ℚ
  accumulated_tree_maintenance_energy : ℚ
  tree_created : Bool
deriving DecidableEq, Repr

/-- The freshly constructed protocol state (`__init__`). -/
def TreeProtocolState.init : TreeProtocolState :=
  { tree_construction_started := false
    destination_list := []
    tree_build_progress := 0
    tree_build_start_time := none
    last_update_time := none
    min_tree_build_time := none
    build_time_calculated := false
    tree_ready := false
    virtual_trees := none
    root_nodes := none
    root_groups := none
    last_etx_to_root := []
    congestion_links := []
    virtual_nodes_history := []
    accumulated_tree_creation_energy := 0
    accumulated_tree_maintenance_energy := 0
    tree_created := false }

/-- `PROTOCOL_ENERGY_CONFIG[..]["TREE_CREATION"]` (`simulation_config.py`). -/
def treeCreationEnergy : ℚ := 1

/-- `PROTOCOL_ENERGY_CONFIG[..]["TREE_MAINTENANCE"]`. -/
def treeMaintenanceEnergy : ℚ := 1/2

/-- `build_pruned_tree_for_pair(source_id, destination_id)`
(`mtp_protocol.py`): BFS from the destination restricted to the ellipse
region, attaching each new node to its cheapest *already-visited* in-ellipse
neighbour. -/
def buildPrunedTreeVisit (o : TreeOracles) (uavs : List UAV) (su du cu : UAV)
    (acc : List Nat × List Nat × List (Nat × Option Nat)) :
    List Nat × List Nat × List (Nat × Option Nat) :=
  (getNeighbors uavs cu).foldl (fun acc nb =>
    let queue := acc.1
    let visited := acc.2.1
    let tree := acc.2.2
    if nb.uid ∈ visited ∨ ¬ o.inEllipse nb su du then acc
    else
      let best := (getNeighbors uavs nb).foldl
        (fun (best : WithTop ℚ × Option UAV) parent =>
          if o.inEllipse parent su du ∧ parent.uid ∈ visited then
            let etx := getLinkBaseDelay o nb parent
            if etx < best.1 then (etx, some parent) else best
          else best) (⊤, none)
      match best.2 with
      | some bp => (queue ++ [nb.uid], visited ++ [nb.uid], tree ++ [(nb.uid, some bp.uid)])
      | none => acc) acc

/-- The work-list loop of `build_pruned_tree_for_pair`. -/
def buildPrunedTreeLoop (o : TreeOracles) (uavs : List UAV) (su du : UAV) :
    Nat → List Nat → List Nat → List (Nat × Option Nat) → List (Nat × Option Nat)
  | 0, _, _, tree => tree
  | _ + 1, [], _, tree => tree
  | fuel + 1, current :: qrest, visited, tree =>
      match uavById uavs current with
      | none => buildPrunedTreeLoop o uavs su du fuel qrest visited tree
      | some cu =>
          let acc := buildPrunedTreeVisit o uavs su du cu (qrest, visited, tree)
          buildPrunedTreeLoop o uavs su du fuel acc.1 acc.2.1 acc.2.2

/-- `build_pruned_tree_for_pair(source_id, destination_id)`
(`mtp_protocol.py`); falls back to `_build_tree_for_root` when pruning is
disabled, and returns the empty tree when either endpoint is unknown. -/
def buildPrunedTreeForPair (treePruningEnabled : Bool) (o : TreeOracles)
    (uavs : List UAV) (source_id destination_id : Nat) : List (Nat × Option Nat) :=
  if ¬ treePruningEnabled then buildTreeForRoot o uavs destination_id
  else
    match uavById uavs source_id, uavById uavs destination_id with
    | some su, some du =>
        buildPrunedTreeLoop o uavs su du (uavs.length + 1)
          [destination_id] [destination_id] [(destination_id, none)]
    | _, _ => []

/-- One group of `build_virtual_tree_structures`: elect `group[0]` as the
tree root, build one tree per group member and merge them into the root's
tree (see `buildVirtualTreeStructures`). -/
def bvtsGroupStep (treePruningEnabled : Bool) (o : TreeOracles)
    (uavs : List UAV) (source_id : Option Nat) (st : TreeProtocolState)
    (group : List Nat) : TreeProtocolState :=
  match group with
  | [] => st
  | root_id :: others =>
      let st := { st with root_nodes := some ((st.root_nodes.getD []) ++ [root_id]) }
      let tree :=
        match treePruningEnabled, source_id with
        | true, some sid => buildPrunedTreeForPair true o uavs sid root_id
        | _, _ => buildTreeForRoot o uavs root_id
      let tree := others.foldl (fun tree other_id =>
        let other_tree :=
          match treePruningEnabled, source_id with
          | true, some sid => buildPrunedTreeForPair true o uavs sid other_id
          | _, _ => buildTreeForRoot o uavs other_id
        mergeTree o uavs tree other_tree) tree
      { st with virtual_trees := some (assocSet (st.virtual_trees.getD []) root_id tree) }

/-- `build_virtual_tree_structures(destination_ids, source_id)`
(`mtp_protocol.py`; the CMTP version is the same code without the pruning
branch, i.e. this function with `treePruningEnabled := false` and
`source_id := none`): group the destinations, then per group elect the root
and build the merged tree (`bvtsGroupStep`).  Records the one-off
tree-creation energy. -/
def buildVirtualTreeStructures (treePruningEnabled : Bool) (cfg : Config)
    (o : TreeOracles) (uavs : List UAV) (st : TreeProtocolState)
    (destination_ids : Option (List Nat)) (source_id : Option Nat) :
    TreeProtocolState :=
  let dests := destination_ids.getD (uavs.map UAV.uid)
  let st := { st with root_nodes := some [], virtual_trees := some [] }
  let st :=
    if cfg.collect_energy_stats ∧ ¬ st.tree_created then
      { st with
          accumulated_tree_creation_energy :=
            st.accumulated_tree_creation_energy + treeCreationEnergy,
          tree_created := true }
    else st
  let groups := groupRootsByDistance uavs dests
  let st := { st with root_groups := some groups }
  groups.foldl (bvtsGroupStep treePruningEnabled o uavs source_id) st

/-- `build_pruned_trees_for_destinations(destination_list, sim_time)`
(`mtp_protocol.py`): the tree-construction entry point of the pruning path;
pairs each destination with a source drawn from the first UAV ids and builds
one pruned tree per destination. -/
def buildPrunedTreesForDestinations (treePruningEnabled : Bool) (cfg : Config)
    (o : TreeOracles) (uavs : List UAV) (st : TreeProtocolState)
    (destination_list : List Nat) : TreeProtocolState :=
  if ¬ treePruningEnabled then
    buildVirtualTreeStructures false cfg o uavs st (some destination_list) none
  else
    let st := { st with root_nodes := some [], virtual_trees := some [] }
    let st :=
      if cfg.collect_energy_stats ∧ ¬ st.tree_created then
        { st with
            accumulated_tree_creation_energy :=
              st.accumulated_tree_creation_energy + treeCreationEnergy,
            tree_created := true }
      else st
    let source_nodes := (uavs.map UAV.uid).take destination_list.length
    destination_list.enum.foldl (fun st idest =>
      let source_id := source_nodes.getD idest.1 (source_nodes.getD 0 0)
      match uavById uavs source_id, uavById uavs idest.2 with
      | some _, some _ =>
          let tree := buildPrunedTreeForPair true o uavs source_id idest.2
          { st with
              virtual_trees := some (assocSet (st.virtual_trees.getD []) idest.2 tree),
              root_nodes := some ((st.root_nodes.getD []) ++ [idest.2]) }
      | _, _ => st) st

/-- `update_congestion_info` (both protocol files): for every tree edge,
record (keyed by the id-sorted undirected link) the roots whose trees use
it. -/
def updateCongestionInfo (trees : List (Nat × List (Nat × Option Nat))) :
    List ((Nat × Nat) × List Nat) :=
  trees.foldl (fun cl rt =>
    rt.2.foldl (fun cl np =>
      match np.2 with
      | none => cl
      | some parent_id =>
          let link := if np.1 ≤ parent_id then (np.1, parent_id) else (parent_id, np.1)
          match alookup cl link with
          | none => cl ++ [(link, [rt.1])]
          | some roots => assocSet cl link (roots ++ [rt.1])) cl) []

/-- `calculate_expected_transmission_time(from_uav, to_uav, ...)` (both
protocol files): the single-hop ETX plus, for every *other* congestion link
sharing a root with this link, the predicted delay `(1/PRR) · 0.5` (or the
`0.2` fallback at zero PRR).  The `mtp_ett_calc` event it logs is dropped by
the `add_event` whitelist and so is elided. -/
def calculateExpectedTransmissionTime (o : TreeOracles) (uavs : List UAV)
    (congestion_links : List ((Nat × Nat) × List Nat)) (from_uav to_uav : UAV) :
    WithTop ℚ :=
  let etx := getLinkBaseDelay o from_uav to_uav
  let link := if from_uav.uid ≤ to_uav.uid then (from_uav.uid, to_uav.uid)
              else (to_uav.uid, from_uav.uid)
  let congestion_delay : WithTop ℚ := congestion_links.foldl (fun cd lr =>
    if lr.1 = link then cd
    else
      match alookup congestion_links link with
      | none => cd
      | some myRoots =>
          if myRoots.any (fun r => r ∈ lr.2) then
            match uavById uavs lr.1.1, uavById uavs lr.1.2 with
            | some ua, some ub =>
                let prr := o.prr ua ub
                if 0 < prr then cd + (((1 : ℚ) / prr * (1/2) : ℚ) : WithTop ℚ)
                else cd + ((1/5 : ℚ) : WithTop ℚ)
            | _, _ => cd
          else cd) (0 : WithTop ℚ)
  etx + congestion_delay

/-- `get_pruned_neighbors(node, source_id, destination_id)`
(`mtp_protocol.py`): the in-range neighbours filtered by the ellipse region,
falling back to the plain neighbour list when pruning is off or an endpoint
is unknown. -/
def getPrunedNeighbors (treePruningEnabled : Bool) (o : TreeOracles)
    (uavs : List UAV) (node : UAV) (source_id destination_id : Nat) : List UAV :=
  if ¬ treePruningEnabled then getNeighbors uavs node
  else
    match uavById uavs source_id, uavById uavs destination_id with
    | some su, some du =>
        (getNeighbors uavs node).filter (fun nb => o.inEllipse nb su du)
    | _, _ => getNeighbors uavs node

/-- `MTPRoutingModel.update_protocol_status(destination_ids, sim_time)`:
start construction on the first destination assignment (computing the build
duration once); in the `Ready` state run maintenance (congestion refresh and
oracle-modelled self-healing); otherwise rebuild the trees (throttled to one
update per 0.1 s of simulated time unless the switch time has been reached,
with a `1e-6` float tolerance) and drive `tree_build_progress` as the pure
time factor, flipping `tree_ready` exactly when
`elapsed + 1e-6 ≥ min_tree_build_time`.  A started state always has its
start time set (the source sets both together), so the `None` start-time
reading, which would raise in Python, returns the state unchanged. -/
def mtpUpdateProtocolStatus (treePruningEnabled : Bool) (cfg : Config)
    (o : TreeOracles) (uavs : List UAV) (st : TreeProtocolState)
    (destination_ids : Option (List Nat)) (sim_time : Option ℚ) :
    TreeProtocolState :=
  let current_time := sim_time.getD 0
  let destsTruthy := match destination_ids with
    | some (_ :: _) => true
    | _ => false
  if destsTruthy && !st.tree_construction_started then
    let dl := destination_ids.getD []
    let st := { st with destination_list := dl
                        tree_construction_started := true
                        tree_build_progress := 0
                        tree_build_start_time := some current_time
                        last_update_time := some current_time }
    let st :=
      if ¬ st.build_time_calculated then
        { st with min_tree_build_time := some o.buildTime, build_time_calculated := true }
      else st
    if treePruningEnabled ∧ 0 < st.destination_list.length then
      buildPrunedTreesForDestinations true cfg o uavs st st.destination_list
    else
      buildVirtualTreeStructures treePruningEnabled cfg o uavs st
        (some st.destination_list) none
  else if st.tree_ready then
    let st := { st with congestion_links := updateCongestionInfo (st.virtual_trees.getD []) }
    let st :=
      if cfg.collect_energy_stats then
        { st with accumulated_tree_maintenance_energy :=
            st.accumulated_tree_maintenance_energy + treeMaintenanceEnergy }
      else st
    let healed := o.selfHeal (st.virtual_trees.getD []) st.last_etx_to_root
    { st with virtual_trees := some healed.1, last_etx_to_root := healed.2 }
  else if st.tree_construction_started ∧ st.destination_list ≠ [] then
    match st.tree_build_start_time with
    | none => st
    | some t0 =>
        let elapsed := current_time - t0
        match st.min_tree_build_time with
        | none => st
        | some threshold =>
            let should_switch := decide (elapsed + 1/1000000 ≥ threshold)
            let throttled : Bool := match st.last_update_time with
              | some lu => decide (current_time - lu < 1/10)
              | none => false
            if throttled && !should_switch && !st.tree_ready then st
            else
              let st := { st with last_update_time := some current_time }
              let st := buildVirtualTreeStructures treePruningEnabled cfg o uavs st
                (some st.destination_list) none
              let st := { st with congestion_links :=
                updateCongestionInfo (st.virtual_trees.getD []) }
              match st.virtual_trees with
              | some (_ :: _) =>
                  let covered := ((st.virtual_trees.getD []).foldl
                    (fun acc rt => acc ++ rt.2.map Prod.fst) []).dedup
                  let hist := st.virtual_nodes_history ++ [covered.length]
                  let hist := if 10 < hist.length then hist.drop (hist.length - 10) else hist
                  let st := { st with virtual_nodes_history := hist }
                  let time_factor := min 1 (elapsed / threshold)
                  let st := { st with tree_build_progress := time_factor }
                  let can_switch := elapsed + 1/1000000 ≥ threshold
                  if can_switch ∧ ¬ st.tree_ready then
                    let st := { st with tree_ready := true }
                    { st with congestion_links :=
                        updateCongestionInfo (st.virtual_trees.getD []) }
                  else st
              | _ => st
  else st

/-- `CMTPRoutingModel.update_protocol_status(destination_ids, sim_time)`
(`cmtp_protocol.py`): as the MTP version but with the build time regenerated
on every start, no pruning path, a hard 0.1 s update throttle (no
switch-time override) and an exact (no tolerance) switch comparison
`elapsed_time >= min_tree_build_time`. -/
def cmtpUpdateProtocolStatus (cfg : Config) (o : TreeOracles) (uavs : List UAV)
    (st : TreeProtocolState) (destination_ids : Option (List Nat))
    (sim_time : Option ℚ) : TreeProtocolState :=
  let current_time := sim_time.getD 0
  let destsTruthy := match destination_ids with
    | some (_ :: _) => true
    | _ => false
  if destsTruthy && !st.tree_construction_started then
    let dl := destination_ids.getD []
    let st := { st with destination_list := dl
                        tree_construction_started := true
                        tree_build_progress := 0
                        tree_build_start_time := some current_time
                        last_update_time := some current_time
                        min_tree_build_time := some o.buildTime }
    buildVirtualTreeStructures false cfg o uavs st (some st.destination_list) none
  else if st.tree_ready then
    let st := { st with congestion_links := updateCongestionInfo (st.virtual_trees.getD []) }
    let st :=
      if cfg.collect_energy_stats then
        { st with accumulated_tree_maintenance_energy :=
            st.accumulated_tree_maintenance_energy + treeMaintenanceEnergy }
      else st
    let healed := o.selfHeal (st.virtual_trees.getD []) st.last_etx_to_root
    { st with virtual_trees := some healed.1, last_etx_to_root := healed.2 }
  else if st.tree_construction_started ∧ st.destination_list ≠ [] then
    let t0 := match st.tree_build_start_time with
      | some t0 => t0
      | none => current_time
    let elapsed := current_time - t0
    let throttled : Bool := match st.last_update_time with
      | some lu => decide (current_time - lu < 1/10)
      | none => false
    if throttled then st
    else
      let st := { st with last_update_time := some current_time }
      let st := buildVirtualTreeStructures false cfg o uavs st
        (some st.destination_list) none
      let st := { st with congestion_links := updateCongestionInfo (st.virtual_trees.getD []) }
      match st.min_tree_build_time with
      | none => st
      | some threshold =>
          match st.virtual_trees with
          | some (_ :: _) =>
              let covered := ((st.virtual_trees.getD []).foldl
                (fun acc rt => acc ++ rt.2.map Prod.fst) []).dedup
              let hist := st.virtual_nodes_history ++ [covered.length]
              let hist := if 10 < hist.length then hist.drop (hist.length - 10) else hist
              let st := { st with virtual_nodes_history := hist }
              let time_factor := min 1 (elapsed / threshold)
              let st := { st with tree_build_progress := time_factor }
              let can_switch := elapsed ≥ threshold
              if can_switch ∧ ¬ st.tree_ready then
                let st := { st with tree_ready := true }
                { st with congestion_links := updateCongestionInfo (st.virtual_trees.getD []) }
              else st
          | _ => st
  else st

/-- The running-minimum scan shared by both `select_next_hop` variants:
`min_ett = inf; for neighbor in candidates: if ett < min_ett: update` —
strict improvement, so the first minimum wins and `None` survives only when
every cost is infinite. -/
def minEttFold (f : UAV → WithTop ℚ) (cands : List UAV) : WithTop ℚ × Option UAV :=
  cands.foldl (fun acc nb => if f nb < acc.1 then (f nb, some nb) else acc) (⊤, none)

/-- The candidate pool `MTPRoutingModel.select_next_hop` scans: with tree
pruning enabled and a destination given, the ellipse-filtered neighbour set
is substituted for the caller's candidates. -/
def mtpSelectPool (treePruningEnabled : Bool) (o : TreeOracles)
    (uavs : List UAV) (current_uav : UAV) (candidate_neighbors : List UAV)
    (destination_id : Option Nat) : List UAV :=
  match treePruningEnabled, destination_id with
  | true, some did => getPrunedNeighbors true o uavs current_uav current_uav.uid did
  | _, _ => candidate_neighbors

/-- `MTPRoutingModel.select_next_hop(current_uav, candidate_neighbors, ...)`:
refresh the protocol state, return no hop while the tree is building, and
otherwise pick the pool candidate with the strictly smallest expected
transmission time (first minimum wins).  The `mtp_waiting_tree` /
`mtp_path_select` events are dropped by the `add_event` whitelist;
`update_etx_with_pruning` writes only pruning bookkeeping nothing embedded
reads.  Returns the updated state with the chosen hop and its cost. -/
def mtpSelectNextHop (treePruningEnabled : Bool) (cfg : Config) (o : TreeOracles)
    (uavs : List UAV) (st : TreeProtocolState) (current_uav : UAV)
    (candidate_neighbors : List UAV) (destination_id : Option Nat)
    (sim_time : Option ℚ) : TreeProtocolState × Option UAV × WithTop ℚ :=
  let st := mtpUpdateProtocolStatus treePruningEnabled cfg o uavs st
    (destination_id.map (fun d => [d])) sim_time
  if st.tree_construction_started ∧ ¬ st.tree_ready then
    (st, none, ⊤)
  else
    let candidates := mtpSelectPool treePruningEnabled o uavs current_uav
      candidate_neighbors destination_id
    let best := minEttFold
      (fun nb => calculateExpectedTransmissionTime o uavs st.congestion_links current_uav nb)
      candidates
    (st, best.2, best.1)

/-- `CMTPRoutingModel.select_next_hop(current_uav, candidate_neighbors, ...)`
(`cmtp_protocol.py`): as the MTP version but without the pruning filter —
the minimum is taken over the candidates passed by the caller. -/
def cmtpSelectNextHop (cfg : Config) (o : TreeOracles) (uavs : List UAV)
    (st : TreeProtocolState) (current_uav : UAV) (candidate_neighbors : List UAV)
    (destination_id : Option Nat) (sim_time : Option ℚ) :
    TreeProtocolState × Option UAV × WithTop ℚ :=
  let st := cmtpUpdateProtocolStatus cfg o uavs st
    (destination_id.map (fun d => [d])) sim_time
  if st.tree_construction_started ∧ ¬ st.tree_ready then
    (st, none, ⊤)
  else
    let best := minEttFold
      (fun nb => calculateExpectedTransmissionTime o uavs st.congestion_links current_uav nb)
      candidate_neighbors
    (st, best.2, best.1)

/-- The virtual root the spec prescribes (stated from the spec's words, for
comparison with the source's election): the group member closest to the
group's centroid — the arithmetic mean of the members' positions — breaking
ties by the first minimum. -/
def centroidNearestMember (uavs : List UAV) (group : List Nat) : Option Nat :=
  let members := group.filterMap (uavById uavs)
  match members with
  | [] => none
  | _ =>
      let n : ℚ := members.length
      let cx := (members.map UAV.x).sum / n
      let cy := (members.map UAV.y).sum / n
      let cz := (members.map UAV.z).sum / n
      let best := members.foldl (fun (acc : Option (ℚ × Nat)) m =>
        let d := (m.x - cx) ^ 2 + (m.y - cy) ^ 2 + (m.z - cz) ^ 2
        match acc with
        | none => some (d, m.uid)
        | some (bd, _) => if d < bd then some (d, m.uid) else acc) none
      best.map Prod.snd

/-! ## PointToPoint protocol (`backend/protocols/ptp_protocol.py`,
class `PTPRoutingModel`) -/

/-- `PRR_MIN` / `PRR_MAX` from `backend/simulation_config.py`. -/
def prrMinCfg : ℚ := 1/2

/-- See `prrMinCfg`. -/
def prrMaxCfg : ℚ := 9/10

/-- One iteration of the running-maximum scan of
`select_next_hop_with_utility`: `if utility > max_utility: update`, with the
`-inf` start modelled as `none` (every finite utility beats it). -/
def maxStep (f : UAV → ℚ) (acc : Option UAV × Option ℚ) (nb : UAV) :
    Option UAV × Option ℚ :=
  match acc.2 with
  | none => (some nb, some (f nb))
  | some m => if m < f nb then (some nb, some (f nb)) else acc

/-- The running-maximum scan of `select_next_hop_with_utility`:
`max_utility = -inf; for neighbor: if utility > max_utility: update` — the
first maximum wins. -/
def maxUtilityFold (f : UAV → ℚ) (cands : List UAV) : Option UAV × Option ℚ :=
  cands.foldl (maxStep f) (none, none)

/-- The candidate filter of `select_next_hop_with_utility` (both protocol
files share it verbatim): keep every other UAV that is within communication
range now, still within range after a `T = 0.4 s` straight-line velocity
look-ahead, and whose transmission vector is not concurrent with any *other*
currently active sending vector. -/
def ptpCandidateFilter (concurrent : (ℚ × ℚ) × (ℚ × ℚ) → (ℚ × ℚ) × (ℚ × ℚ) → Bool)
    (current_uav : UAV) (all_uavs : List UAV)
    (all_sending_vectors : Option (List ((ℚ × ℚ) × (ℚ × ℚ)))) : List UAV :=
  let T : ℚ := 2/5
  all_uavs.filter (fun nb =>
    decide (nb.uid ≠ current_uav.uid) &&
    decide (dist2xy current_uav nb ≤ uavCommunicationRange ^ 2) &&
    decide (((current_uav.x + current_uav.vx * T) - (nb.x + nb.vx * T)) ^ 2 +
      ((current_uav.y + current_uav.vy * T) - (nb.y + nb.vy * T)) ^ 2 ≤
      uavCommunicationRange ^ 2) &&
    (match all_sending_vectors with
     | none => true
     | some vecs =>
         let my_vec := ((current_uav.x, current_uav.y), (nb.x, nb.y))
         ! vecs.any (fun ov => decide (ov ≠ my_vec) && concurrent my_vec ov)))

/-- The utility `PTPRoutingModel.select_next_hop_with_utility` maximizes: the
expected-delay difference plus a PRR bonus weighted by `prr_weight`. -/
def ptpUtility (eod prr : UAV → UAV → ℚ) (prr_weight : ℚ)
    (current_uav dest_uav nb : UAV) : ℚ :=
  eod current_uav dest_uav - eod nb dest_uav + prr_weight * prr current_uav nb

/-- `PTPRoutingModel.select_next_hop_with_utility(current_uav, dest_uav,
all_uavs, all_sending_vectors)`: filter the candidates to those in
communication range both now and after a `T = 0.4 s` velocity look-ahead and
not concurrent with any active sending vector, then pick the candidate with
the strictly largest `eod(current, dest) − eod(candidate, dest) +
prr_weight · prr(current, candidate)`, where `prr_weight` is `0.5` when the
configured average PRR is below `0.3` and `0.3` otherwise (first maximum
wins, every finite utility beats the `-inf` start, modelled as `none`).
`eod` (`get_link_base_delay`, square-root geometry over the PRR grid), `prr`
(`_get_prr`, cached random draws) and `concurrent`
(`are_vectors_concurrent`, `arccos` geometry) are oracles; range checks are
2-D and exact in squared form. -/
def ptpSelectNextHopWithUtility (prr_min prr_max : ℚ)
    (eod : UAV → UAV → ℚ) (prr : UAV → UAV → ℚ)
    (concurrent : (ℚ × ℚ) × (ℚ × ℚ) → (ℚ × ℚ) × (ℚ × ℚ) → Bool)
    (current_uav dest_uav : UAV) (all_uavs : List UAV)
    (all_sending_vectors : Option (List ((ℚ × ℚ) × (ℚ × ℚ)))) :
    Option UAV × Option ℚ :=
  let candidate_neighbors :=
    ptpCandidateFilter concurrent current_uav all_uavs all_sending_vectors
  let avg_prr := (prr_min + prr_max) / 2
  let prr_weight : ℚ := if avg_prr < 3/10 then 1/2 else 3/10
  maxUtilityFold
    (fun nb => ptpUtility eod prr prr_weight current_uav dest_uav nb)
    candidate_neighbors

/-- The hop selection the spec prescribes (stated from the spec's words, for
comparison with the source): among the same filtered candidates, the one
maximizing the plain difference `eod(current, dest) − eod(candidate, dest)`,
first maximum winning. -/
def specUtilityBest (eod : UAV → UAV → ℚ) (current_uav dest_uav : UAV)
    (candidates : List UAV) : Option UAV :=
  (maxUtilityFold (fun nb => eod current_uav dest_uav - eod nb dest_uav) candidates).1

/-! ## Concrete fixtures used by witnesses and counterexamples -/

/-- An in-transit packet one hop before its relay (fixture). -/
def c1pkt : Packet :=
  { Packet.init 1 0 5 0 with
      path := [0, 2, 5]
      status := "in_transit"
      per_hop_waits := [1] }

/-- A MAC state with a single distance-interference queue whose head sender
`0` targets receiver `2` (fixture). -/
def c1st : MacState :=
  { txQueues := [(0, [c1pkt]), (2, []), (5, [])]
    collisionQueues := []
    distanceInterferenceQueues := [(2, [0])]
    sim_time := 1
    total_hop_attempts := 0 }

/-- An attempt oracle whose every transmission attempt fails the PRR roll
(fixture). -/
def c1attempt : Nat → Nat → Bool × Option String := fun _ _ => (false, some "PRR")

/-- A packet one failure away from the retry cap of `defaultConfig`
(fixture). -/
def c3pkt : Packet :=
  { Packet.init 1 0 3 0 with
      path := [0, 2, 3]
      status := "in_transit"
      retransmission_count := 9
      per_hop_waits := [3] }

/-- The MAC state holding `c3pkt` at the head of sender `0`'s queue
(fixture). -/
def c3st : MacState :=
  { txQueues := [(0, [c3pkt]), (2, []), (3, [])]
    collisionQueues := []
    distanceInterferenceQueues := []
    sim_time := 2
    total_hop_attempts := 0 }

/-- A packet about to take its final hop (fixture). -/
def c9pkt : Packet :=
  { Packet.init 7 4 9 3 with
      path := [4, 9]
      status := "in_transit" }

/-- A fresh packet (fixture). -/
def c10pkt : Packet := Packet.init 1 0 1 0

/-- A mid-flight packet with a clean retry counter (fixture). -/
def c2pkt : Packet :=
  { Packet.init 2 0 3 0 with
      path := [0, 2, 3]
      status := "in_transit"
      retransmission_count := 4
      per_hop_waits := [1] }

/-- The MAC state holding `c2pkt` at the head of sender `0`'s queue
(fixture). -/
def c2st : MacState :=
  { txQueues := [(0, [c2pkt]), (2, []), (3, [])]
    collisionQueues := []
    distanceInterferenceQueues := []
    sim_time := 3
    total_hop_attempts := 0 }

/-- The node holding the packet in the C7 scenario (fixture). -/
def c7cur : UAV := { uid := 0, x := 0, y := 0, z := 0, vx := 0, vy := 0 }

/-- Candidate relay at distance 80 from `c7cur` (fixture). -/
def c7a : UAV := { uid := 1, x := 80, y := 0, z := 0, vx := 0, vy := 0 }

/-- Candidate relay at distance 5 from `c7cur` (fixture). -/
def c7b : UAV := { uid := 2, x := 5, y := 0, z := 0, vx := 0, vy := 0 }

/-- The destination of the C7 scenario (fixture). -/
def c7dest : UAV := { uid := 9, x := 200, y := 0, z := 0, vx := 0, vy := 0 }

/-- The live UAV list of the C7 scenario (fixture). -/
def c7all : List UAV := [c7cur, c7a, c7b]

/-- Expected-delay oracle (`get_link_base_delay` outputs) of the C7 scenario:
`eod(cur, dest) = 10`, `eod(a, dest) = 9`, `eod(b, dest) = 9.05`
(fixture). -/
def c7eod : UAV → UAV → ℚ :=
  fun u _ => if u.uid = 0 then 10 else if u.uid = 1 then 9 else
    if u.uid = 2 then 181/20 else 0

/-- PRR oracle (`_get_prr` cached draws) of the C7 scenario: `0.5` to the far
candidate `c7a` (distance band 60–100), `0.9` to the near candidate `c7b`
(fixture). -/
def c7prr : UAV → UAV → ℚ := fun _ v => if v.uid = 1 then 1/2 else 9/10

/-- Concurrency oracle of the C7 scenario: no two vectors concurrent
(fixture). -/
def c7conc : (ℚ × ℚ) × (ℚ × ℚ) → (ℚ × ℚ) × (ℚ × ℚ) → Bool := fun _ _ => false

/-- Three collinear UAVs spaced 10 apart — all within the merge threshold 30
of UAV 1, with centroid at UAV 2's position (fixture). -/
def c8uavs : List UAV :=
  [{ uid := 1, x := 0, y := 0, z := 0, vx := 0, vy := 0 },
   { uid := 2, x := 10, y := 0, z := 0, vx := 0, vy := 0 },
   { uid := 3, x := 20, y := 0, z := 0, vx := 0, vy := 0 }]

/-- Deterministic tree oracles: perfect links, everything inside every
ellipse, a 5-tick build time, identity self-healing (fixture). -/
def c8o : TreeOracles :=
  { prr := fun _ _ => 1
    inEllipse := fun _ _ _ => true
    buildTime := 5
    selfHeal := fun t e => (t, e) }

/-! ## Helper lemmas -/

/-- `add_event` ignores every event type outside the whitelist that lacks the
`fail_` prefix. -/
theorem addEvent_drop (cfg : Config) (p : Packet) (ty : String)
    (holder hop : Nat) (t : ℚ) (info : String)
    (hty : ty ∉ coreEvents ∧ ¬ strStartsWith ty "fail_") :
    p.add_event cfg ty holder hop t info = p := by
  unfold Packet.add_event
  rw [if_pos hty]

/-- `_log_failure` preserves the retry counter. -/
theorem logFailure_count (t : ℚ) (p : Packet) (reason : String) :
    (logFailure t p reason).retransmission_count = p.retransmission_count := by
  unfold logFailure; dsimp only; split_ifs <;> rfl

/-- `_log_failure` preserves the status. -/
theorem logFailure_status (t : ℚ) (p : Packet) (reason : String) :
    (logFailure t p reason).status = p.status := by
  unfold logFailure; dsimp only; split_ifs <;> rfl

/-- `_log_failure` preserves the event history. -/
theorem logFailure_history (t : ℚ) (p : Packet) (reason : String) :
    (logFailure t p reason).event_history = p.event_history := by
  unfold logFailure; dsimp only; split_ifs <;> rfl

/-- The retry counter of the packet `_handle_failure` builds. -/
theorem handleFailurePacket_count (st : MacState) (p : Packet) (reason : String) :
    (handleFailurePacket st p reason).retransmission_count =
      handleFailureCount p reason := by
  unfold handleFailurePacket
  rw [logFailure_count]

/-- `_handle_failure` outside the CMTP-building stage and the
tree-construction wait, in closed form: update the packet (counter, status,
failure-log marker — the `transmission_fail` event is whitelist-dropped),
write it back to the queue head, and dequeue terminally when the counter has
reached the configured maximum. -/
theorem handleFailure_normal (cfg : Config) (st : MacState) (senderId : Nat)
    (p : Packet) (reason : String)
    (hw : strContains reason "Waiting_Tree_Construction" = false) :
    handleFailure cfg false st senderId p reason =
      if cfg.max_retransmissions ≤ (handleFailurePacket st p reason).retransmission_count then
        handleTerminalFailure
          (st.setTxHead senderId (handleFailurePacket st p reason)) senderId
          (handleFailurePacket st p reason) ("Max_Retries(" ++ reason ++ ")")
      else
        (st.setTxHead senderId (handleFailurePacket st p reason),
         handleFailurePacket st p reason) := by
  unfold handleFailure handleFailurePacket handleFailureCount
  rw [if_neg (by decide : ¬ ((false : Bool) = true))]
  rw [if_neg (by simp [hw] : ¬ (strContains reason "Waiting_Tree_Construction" = true))]
  dsimp only
  rw [addEvent_drop]
  · by_cases hinc : reason ≠ "Distance_Interference_Queue" ∧ reason ≠ "Collision_Queue"
    · simp only [if_pos hinc]
    · simp only [if_neg hinc]
  · decide

/-- Looking up a key of an association list after a map-style overwrite. -/
theorem alookup_overwrite {κ α : Type} [DecidableEq κ]
    (l : List (κ × α)) (k : κ) (v : α) (h : (alookup l k).isSome) :
    alookup (l.map (fun kv => if kv.1 = k then (k, v) else kv)) k = some v := by
  induction l with
  | nil => simp [alookup] at h
  | cons kv tl ih =>
      by_cases hk : kv.1 = k
      · simp [alookup, hk]
      · have h' : (alookup tl k).isSome := by
          simpa [alookup, hk] using h
        simpa [alookup, hk] using ih h'

/-- Looking up a key of an association list with a fresh pair appended. -/
theorem alookup_append_fresh {κ α : Type} [DecidableEq κ]
    (l : List (κ × α)) (k : κ) (v : α) (h : ¬ (alookup l k).isSome) :
    alookup (l ++ [(k, v)]) k = some v := by
  induction l with
  | nil => simp [alookup]
  | cons kv tl ih =>
      by_cases hk : kv.1 = k
      · exact absurd (by simp [alookup, hk]) h
      · have h' : ¬ (alookup tl k).isSome := by
          simpa [alookup, hk] using h
        simpa [alookup, hk] using ih h'

/-- Looking up the just-written key of an ordered-dictionary update. -/
theorem lookup_assocSet_self {κ α : Type} [DecidableEq κ]
    (l : List (κ × α)) (k : κ) (v : α) :
    alookup (assocSet l k v) k = some v := by
  unfold assocSet
  split_ifs with h
  · exact alookup_overwrite l k v h
  · exact alookup_append_fresh l k v h

/-- Reading back a freshly written transmit queue. -/
theorem txQueue_setTxQueue_self (st : MacState) (uid : Nat) (q : List Packet) :
    (st.setTxQueue uid q).txQueue uid = q := by
  unfold MacState.setTxQueue MacState.txQueue
  simp [lookup_assocSet_self]

/-- Overwriting the head of a known queue. -/
theorem setTxHead_of_head (st : MacState) (uid : Nat) (p' p : Packet)
    (rest : List Packet) (h : st.txQueue uid = p :: rest) :
    st.setTxHead uid p' = st.setTxQueue uid (p' :: rest) := by
  unfold MacState.setTxHead
  rw [h]

/-- Popping the head of a freshly written queue. -/
theorem txQueue_popTxHead_set (st : MacState) (uid : Nat) (p' : Packet)
    (rest : List Packet) :
    ((st.setTxQueue uid (p' :: rest)).popTxHead uid).txQueue uid = rest := by
  unfold MacState.popTxHead
  rw [txQueue_setTxQueue_self, txQueue_setTxQueue_self]
  rfl

/-- `maxStep` on a running maximum is the bare comparison. -/
theorem maxStep_some (f : UAV → ℚ) (b : UAV) (m : ℚ) (x : UAV) :
    maxStep f (some b, some m) x =
      if m < f x then (some x, some (f x)) else (some b, some m) := rfl

/-- From a running maximum `f b`, the scan returns a first maximum of `b`
and the remaining list. -/
theorem maxFold_go (f : UAV → ℚ) (l : List UAV) :
    ∀ b : UAV,
      ∃ c, List.foldl (maxStep f) (some b, some (f b)) l = (some c, some (f c)) ∧
        (c = b ∨ c ∈ l) ∧ f b ≤ f c ∧ ∀ x ∈ l, f x ≤ f c := by
  induction l with
  | nil =>
      intro b
      exact ⟨b, rfl, Or.inl rfl, le_refl _, fun x hx => absurd hx (List.not_mem_nil x)⟩
  | cons x tl ih =>
      intro b
      rw [List.foldl_cons, maxStep_some]
      by_cases hx : f b < f x
      · rw [if_pos hx]
        obtain ⟨c, hc, hcm, hbc, hall⟩ := ih x
        refine ⟨c, hc, ?_, le_of_lt (lt_of_lt_of_le hx hbc), ?_⟩
        · rcases hcm with h | h
          · exact Or.inr (h ▸ List.mem_cons_self x tl)
          · exact Or.inr (List.mem_cons_of_mem x h)
        · intro y hy
          rcases List.mem_cons.mp hy with h | h
          · exact h ▸ hbc
          · exact hall y h
      · rw [if_neg hx]
        obtain ⟨c, hc, hcm, hbc, hall⟩ := ih b
        refine ⟨c, hc, ?_, hbc, ?_⟩
        · rcases hcm with h | h
          · exact Or.inl h
          · exact Or.inr (List.mem_cons_of_mem x h)
        · intro y hy
          rcases List.mem_cons.mp hy with h | h
          · exact h ▸ le_trans (le_of_not_lt hx) hbc
          · exact hall y h

/-- On a non-empty candidate list the scan returns a member attaining the
maximum utility. -/
theorem maxUtilityFold_spec (f : UAV → ℚ) (l : List UAV) (hl : l ≠ []) :
    ∃ c, (maxUtilityFold f l).1 = some c ∧ c ∈ l ∧ ∀ x ∈ l, f x ≤ f c := by
  cases l with
  | nil => exact absurd rfl hl
  | cons x tl =>
      obtain ⟨c, hc, hcm, hxc, hall⟩ := maxFold_go f tl x
      refine ⟨c, ?_, ?_, ?_⟩
      · show (List.foldl (maxStep f) (maxStep f (none, none) x) tl).1 = some c
        rw [show maxStep f (none, none) x = (some x, some (f x)) from rfl, hc]
      · rcases hcm with h | h
        · exact h ▸ List.mem_cons_self x tl
        · exact List.mem_cons_of_mem x h
      · intro y hy
        rcases List.mem_cons.mp hy with h | h
        · exact h ▸ hxc
        · exact hall y h

/-- An empty candidate list yields no selection. -/
theorem maxUtilityFold_nil (f : UAV → ℚ) : maxUtilityFold f [] = (none, none) := rfl

/-- An entry of `enumFrom` carries a list member. -/
theorem snd_mem_of_mem_enumFrom {α : Type} :
    ∀ {l : List α} {n : Nat} {x : Nat × α}, x ∈ l.enumFrom n → x.2 ∈ l := by
  intro l
  induction l with
  | nil => intro n x h; cases h
  | cons a l ih =>
      intro n x h
      rcases List.mem_cons.mp h with h | h
      · subst h; exact List.mem_cons_self a l
      · exact List.mem_cons_of_mem a (ih h)

/-- An entry of `enum` carries a list member. -/
theorem snd_mem_of_mem_enum {α : Type} {l : List α} {x : Nat × α}
    (h : x ∈ l.enum) : x.2 ∈ l :=
  snd_mem_of_mem_enumFrom h

/-- An empty group changes nothing. -/
theorem bvtsGroupStep_nil (tp : Bool) (o : TreeOracles) (uavs : List UAV)
    (sid : Option Nat) (st : TreeProtocolState) :
    bvtsGroupStep tp o uavs sid st [] = st := rfl

/-- A non-empty group appends exactly its head to `root_nodes` and leaves
`root_groups` alone. -/
theorem bvtsGroupStep_roots (tp : Bool) (o : TreeOracles) (uavs : List UAV)
    (sid : Option Nat) (st : TreeProtocolState) (r : Nat) (others : List Nat) :
    (bvtsGroupStep tp o uavs sid st (r :: others)).root_nodes =
      some ((st.root_nodes.getD []) ++ [r]) ∧
    (bvtsGroupStep tp o uavs sid st (r :: others)).root_groups =
      st.root_groups := by
  exact ⟨rfl, rfl⟩

/-- Folding the group builder over a group list appends each group's head to
`root_nodes`, in order, and never touches `root_groups`. -/
theorem bvtsFold_roots (tp : Bool) (o : TreeOracles) (uavs : List UAV)
    (sid : Option Nat) (groups : List (List Nat)) :
    ∀ (st : TreeProtocolState) (l : List Nat), st.root_nodes = some l →
      (groups.foldl (bvtsGroupStep tp o uavs sid) st).root_nodes =
        some (l ++ groups.filterMap List.head?) ∧
      (groups.foldl (bvtsGroupStep tp o uavs sid) st).root_groups =
        st.root_groups := by
  induction groups with
  | nil =>
      intro st l hl
      refine ⟨?_, rfl⟩
      rw [List.foldl_nil, hl]
      simp
  | cons g gs ih =>
      intro st l hl
      cases g with
      | nil =>
          rw [List.foldl_cons, bvtsGroupStep_nil]
          obtain ⟨h1, h2⟩ := ih st l hl
          exact ⟨by rw [h1]; simp, h2⟩
      | cons r others =>
          rw [List.foldl_cons]
          have hstep := bvtsGroupStep_roots tp o uavs sid st r others
          have hroot : (bvtsGroupStep tp o uavs sid st (r :: others)).root_nodes =
              some (l ++ [r]) := by
            rw [hstep.1, hl]
            rfl
          obtain ⟨h1, h2⟩ := ih _ _ hroot
          refine ⟨?_, h2.trans hstep.2⟩
          rw [h1]
          simp [List.filterMap_cons]

/-- `build_virtual_tree_structures` records the group list in `root_groups`
and, as `root_nodes`, the heads of the (always non-empty) groups. -/
theorem bvts_root_fields (tp : Bool) (cfg : Config) (o : TreeOracles)
    (uavs : List UAV) (st : TreeProtocolState) (dest_ids : Option (List Nat))
    (sid : Option Nat) :
    (buildVirtualTreeStructures tp cfg o uavs st dest_ids sid).root_groups =
      some (groupRootsByDistance uavs (dest_ids.getD (uavs.map UAV.uid))) ∧
    (buildVirtualTreeStructures tp cfg o uavs st dest_ids sid).root_nodes =
      some ((groupRootsByDistance uavs
        (dest_ids.getD (uavs.map UAV.uid))).filterMap List.head?) := by
  have main : ∀ st0 : TreeProtocolState, st0.root_nodes = some [] →
      ((groupRootsByDistance uavs (dest_ids.getD (uavs.map UAV.uid))).foldl
          (bvtsGroupStep tp o uavs sid) st0).root_groups = st0.root_groups ∧
      ((groupRootsByDistance uavs (dest_ids.getD (uavs.map UAV.uid))).foldl
          (bvtsGroupStep tp o uavs sid) st0).root_nodes =
        some ((groupRootsByDistance uavs
          (dest_ids.getD (uavs.map UAV.uid))).filterMap List.head?) := by
    intro st0 h0
    obtain ⟨h1, h2⟩ := bvtsFold_roots tp o uavs sid _ st0 [] h0
    exact ⟨h2, by rw [h1]; simp⟩
  simp only [buildVirtualTreeStructures]
  by_cases hP : cfg.collect_energy_stats ∧ ¬ st.tree_created
  · rw [if_pos hP]
    exact ⟨(main _ rfl).1.trans rfl, (main _ rfl).2⟩
  · rw [if_neg hP]
    exact ⟨(main _ rfl).1.trans rfl, (main _ rfl).2⟩

/-- The inner scan of `_group_roots_by_distance` only ever appends
destinations strictly within the merge threshold of the seed. -/
theorem groupInner_extends (uavs : List UAV) (i : Nat) (uav1 : UAV)
    (dl : List Nat) :
    ∀ (l : List (Nat × Nat)) (acc2 : List Nat × List Nat),
      (∀ jid ∈ l, jid.2 ∈ dl) →
      ∃ tail, (l.foldl (groupInnerStep uavs i uav1) acc2).1 = acc2.1 ++ tail ∧
        ∀ m ∈ tail, m ∈ dl ∧ ∃ u2, uavById uavs m = some u2 ∧
          dist2 uav1 u2 < mergeDistanceThreshold ^ 2 := by
  intro l
  induction l with
  | nil =>
      intro acc2 _
      exact ⟨[], (List.append_nil _).symm, fun m hm => absurd hm (List.not_mem_nil m)⟩
  | cons j l ih =>
      intro acc2 hl
      rw [List.foldl_cons]
      by_cases hskip : j.1 = i ∨ j.2 ∈ acc2.2
      · rw [show groupInnerStep uavs i uav1 acc2 j = acc2 from by
          unfold groupInnerStep; rw [if_pos hskip]]
        exact ih acc2 (fun x hx => hl x (List.mem_cons_of_mem j hx))
      · cases hu : uavById uavs j.2 with
        | none =>
            rw [show groupInnerStep uavs i uav1 acc2 j = acc2 from by
              unfold groupInnerStep; rw [if_neg hskip, hu]]
            exact ih acc2 (fun x hx => hl x (List.mem_cons_of_mem j hx))
        | some uav2 =>
            by_cases hd : dist2 uav1 uav2 < mergeDistanceThreshold ^ 2
            · rw [show groupInnerStep uavs i uav1 acc2 j =
                  (acc2.1 ++ [j.2], acc2.2 ++ [j.2]) from by
                unfold groupInnerStep; rw [if_neg hskip, hu]; dsimp only
                rw [if_pos hd]]
              obtain ⟨tail, htail, hgood⟩ := ih (acc2.1 ++ [j.2], acc2.2 ++ [j.2])
                (fun x hx => hl x (List.mem_cons_of_mem j hx))
              refine ⟨j.2 :: tail, ?_, ?_⟩
              · rw [htail]
                simp
              · intro m hm
                rcases List.mem_cons.mp hm with h | h
                · subst h
                  exact ⟨hl j (List.mem_cons_self j l), uav2, hu, hd⟩
                · exact hgood m h
            · rw [show groupInnerStep uavs i uav1 acc2 j = acc2 from by
                unfold groupInnerStep; rw [if_neg hskip, hu]; dsimp only
                rw [if_neg hd]]
              exact ih acc2 (fun x hx => hl x (List.mem_cons_of_mem j hx))

/-- Every group the outer scan of `_group_roots_by_distance` accumulates is a
seed group. -/
theorem groupOuter_inv (uavs : List UAV) (dl : List Nat) :
    ∀ (l : List (Nat × Nat)) (acc : List (List Nat) × List Nat),
      (∀ jid ∈ l, jid.2 ∈ dl) →
      (∀ g ∈ acc.1, seedGroup uavs dl g) →
      ∀ g ∈ (l.foldl (groupOuterStep uavs dl) acc).1, seedGroup uavs dl g := by
  intro l
  induction l with
  | nil => intro acc _ hacc; exact hacc
  | cons iid l ih =>
      intro acc hl hacc
      rw [List.foldl_cons]
      by_cases hused : iid.2 ∈ acc.2
      · rw [show groupOuterStep uavs dl acc iid = acc from by
          unfold groupOuterStep; rw [if_pos hused]]
        exact ih acc (fun x hx => hl x (List.mem_cons_of_mem iid hx)) hacc
      · cases hu : uavById uavs iid.2 with
        | none =>
            rw [show groupOuterStep uavs dl acc iid = acc from by
              unfold groupOuterStep; rw [if_neg hused, hu]]
            exact ih acc (fun x hx => hl x (List.mem_cons_of_mem iid hx)) hacc
        | some uav1 =>
            rw [show groupOuterStep uavs dl acc iid =
                (acc.1 ++ [(dl.enum.foldl (groupInnerStep uavs iid.1 uav1)
                    ([iid.2], acc.2)).1],
                 (dl.enum.foldl (groupInnerStep uavs iid.1 uav1)
                    ([iid.2], acc.2)).2 ++ [iid.2]) from by
              unfold groupOuterStep; rw [if_neg hused, hu]]
            refine ih _ (fun x hx => hl x (List.mem_cons_of_mem iid hx)) ?_
            intro g hg
            rcases List.mem_append.mp hg with h | h
            · exact hacc g h
            · have hgeq : g = (dl.enum.foldl (groupInnerStep uavs iid.1 uav1)
                  ([iid.2], acc.2)).1 := by
                simpa using h
              obtain ⟨tail, htail, hgood⟩ := groupInner_extends uavs iid.1 uav1 dl
                dl.enum ([iid.2], acc.2) (fun jid hj => snd_mem_of_mem_enum hj)
              refine ⟨iid.2, tail, ?_, hl iid (List.mem_cons_self iid l), ?_⟩
              · rw [hgeq, htail]
                rfl
              · intro m hm
                obtain ⟨hmdl, u2, hu2, hd⟩ := hgood m hm
                exact ⟨hmdl, uav1, u2, hu, hu2, hd⟩

/-- Invariant of the running-minimum scan of `select_next_hop`: from a start
whose value matches its carried candidate (`⊤` for `none`), the scan's result
is a lower bound of the scanned costs, still matches its candidate, and its
candidate comes from the list or the start. -/
theorem minEttFold_go (f : UAV → WithTop ℚ) :
    ∀ (l : List UAV) (m : WithTop ℚ) (b : Option UAV) (r : WithTop ℚ × Option UAV),
      (∀ c, b = some c → m = f c) → (b = none → m = ⊤) →
      r = l.foldl (fun acc nb => if f nb < acc.1 then (f nb, some nb) else acc) (m, b) →
      r.1 ≤ m ∧ (∀ x ∈ l, r.1 ≤ f x) ∧
      (∀ c, r.2 = some c → (c ∈ l ∨ b = some c) ∧ r.1 = f c) ∧
      (r.2 = none → r.1 = ⊤) := by
  intro l
  induction l with
  | nil =>
      intro m b r hsome hnone hr
      subst hr
      refine ⟨le_refl _, ?_, ?_, ?_⟩
      · intro x hx; exact absurd hx (List.not_mem_nil x)
      · intro c hc; exact ⟨Or.inr hc, hsome c hc⟩
      · exact hnone
  | cons x l ih =>
      intro m b r hsome hnone hr
      rw [List.foldl_cons] at hr
      by_cases hx : f x < m
      · rw [if_pos hx] at hr
        obtain ⟨h1, h2, h3, h4⟩ := ih (f x) (some x) r
          (fun c hc => by injection hc with h; rw [h])
          (fun h => Option.noConfusion h) hr
        refine ⟨le_trans h1 (le_of_lt hx), ?_, ?_, h4⟩
        · intro y hy
          rcases List.mem_cons.mp hy with h | h
          · rw [h]; exact h1
          · exact h2 y h
        · intro c hc
          obtain ⟨hmem, hval⟩ := h3 c hc
          rcases hmem with h | h
          · exact ⟨Or.inl (List.mem_cons_of_mem x h), hval⟩
          · injection h with h
            exact ⟨Or.inl (h ▸ List.mem_cons_self x l), hval⟩
      · rw [if_neg hx] at hr
        obtain ⟨h1, h2, h3, h4⟩ := ih m b r hsome hnone hr
        refine ⟨h1, ?_, ?_, h4⟩
        · intro y hy
          rcases List.mem_cons.mp hy with h | h
          · rw [h]; exact le_trans h1 (le_of_not_lt hx)
          · exact h2 y h
        · intro c hc
          obtain ⟨hmem, hval⟩ := h3 c hc
          rcases hmem with h | h
          · exact ⟨Or.inl (List.mem_cons_of_mem x h), hval⟩
          · exact ⟨Or.inr h, hval⟩

/-- The running-minimum scan returns a candidate of minimal cost, and `none`
only when every cost is infinite. -/
theorem minEttFold_spec (f : UAV → WithTop ℚ) (l : List UAV) :
    (∀ c, (minEttFold f l).2 = some c →
       c ∈ l ∧ (minEttFold f l).1 = f c ∧ ∀ x ∈ l, f c ≤ f x) ∧
    ((minEttFold f l).2 = none → ∀ x ∈ l, f x = ⊤) := by
  obtain ⟨h1, h2, h3, h4⟩ := minEttFold_go f l ⊤ none (minEttFold f l)
    (fun c hc => Option.noConfusion hc) (fun _ => rfl) rfl
  constructor
  · intro c hc
    obtain ⟨hmem, hval⟩ := h3 c hc
    rcases hmem with h | h
    · exact ⟨h, hval, fun x hx => le_trans (le_of_eq hval.symm) (h2 x hx)⟩
    · exact Option.noConfusion h
  · intro hc x hx
    exact top_le_iff.mp (le_trans (le_of_eq (h4 hc).symm) (h2 x hx))

/-- The group builder never flips `tree_ready` or the build duration. -/
theorem bvtsGroupStep_fields (tp : Bool) (o : TreeOracles) (uavs : List UAV)
    (sid : Option Nat) (st : TreeProtocolState) (g : List Nat) :
    (bvtsGroupStep tp o uavs sid st g).tree_ready = st.tree_ready ∧
    (bvtsGroupStep tp o uavs sid st g).min_tree_build_time =
      st.min_tree_build_time := by
  cases g <;> exact ⟨rfl, rfl⟩

/-- Folding the group builder never flips `tree_ready` or the build
duration. -/
theorem bvtsFold_fields (tp : Bool) (o : TreeOracles) (uavs : List UAV)
    (sid : Option Nat) :
    ∀ (groups : List (List Nat)) (st : TreeProtocolState),
      (groups.foldl (bvtsGroupStep tp o uavs sid) st).tree_ready =
        st.tree_ready ∧
      (groups.foldl (bvtsGroupStep tp o uavs sid) st).min_tree_build_time =
        st.min_tree_build_time := by
  intro groups
  induction groups with
  | nil => intro st; exact ⟨rfl, rfl⟩
  | cons g gs ih =>
      intro st
      rw [List.foldl_cons]
      obtain ⟨h1, h2⟩ := ih (bvtsGroupStep tp o uavs sid st g)
      obtain ⟨h3, h4⟩ := bvtsGroupStep_fields tp o uavs sid st g
      exact ⟨h1.trans h3, h2.trans h4⟩

/-- `build_virtual_tree_structures` never flips `tree_ready` or the build
duration. -/
theorem bvts_fields (tp : Bool) (cfg : Config) (o : TreeOracles)
    (uavs : List UAV) (st : TreeProtocolState) (dest_ids : Option (List Nat))
    (sid : Option Nat) :
    (buildVirtualTreeStructures tp cfg o uavs st dest_ids sid).tree_ready =
      st.tree_ready ∧
    (buildVirtualTreeStructures tp cfg o uavs st dest_ids sid).min_tree_build_time =
      st.min_tree_build_time := by
  simp only [buildVirtualTreeStructures]
  by_cases hP : cfg.collect_energy_stats ∧ ¬ st.tree_created
  · rw [if_pos hP]
    obtain ⟨h1, h2⟩ := bvtsFold_fields tp o uavs sid
      (groupRootsByDistance uavs (dest_ids.getD (uavs.map UAV.uid))) _
    exact ⟨h1, h2⟩
  · rw [if_neg hP]
    obtain ⟨h1, h2⟩ := bvtsFold_fields tp o uavs sid
      (groupRootsByDistance uavs (dest_ids.getD (uavs.map UAV.uid))) _
    exact ⟨h1, h2⟩

/-- Ordered-dictionary insertion never empties the dictionary. -/
theorem assocSet_ne_nil {κ α : Type} [DecidableEq κ] (l : List (κ × α))
    (k : κ) (v : α) : assocSet l k v ≠ [] := by
  by_cases hs : (alookup l k).isSome
  · unfold assocSet
    rw [if_pos hs]
    intro h
    rw [List.map_eq_nil_iff] at h
    subst h
    exact absurd hs (by simp [alookup])
  · unfold assocSet
    rw [if_neg hs]
    intro h
    exact absurd h (by simp)

/-- A non-empty group leaves a non-empty tree dictionary behind. -/
theorem bvtsGroupStep_trees_ne_nil (tp : Bool) (o : TreeOracles)
    (uavs : List UAV) (sid : Option Nat) (st : TreeProtocolState) (r : Nat)
    (others : List Nat) :
    ∃ l, (bvtsGroupStep tp o uavs sid st (r :: others)).virtual_trees =
      some l ∧ l ≠ [] :=
  ⟨_, rfl, assocSet_ne_nil _ _ _⟩

/-- Folding the group builder leaves a non-empty tree dictionary when it
starts with one or meets a non-empty group. -/
theorem bvtsFold_trees (tp : Bool) (o : TreeOracles) (uavs : List UAV)
    (sid : Option Nat) :
    ∀ (groups : List (List Nat)) (st : TreeProtocolState),
      ((∃ l, st.virtual_trees = some l ∧ l ≠ []) ∨ ∃ g ∈ groups, g ≠ []) →
      ∃ l, (groups.foldl (bvtsGroupStep tp o uavs sid) st).virtual_trees =
        some l ∧ l ≠ [] := by
  intro groups
  induction groups with
  | nil =>
      intro st h
      rcases h with h | ⟨g, hg, _⟩
      · exact h
      · exact absurd hg (List.not_mem_nil g)
  | cons g gs ih =>
      intro st h
      rw [List.foldl_cons]
      cases g with
      | nil =>
          rw [bvtsGroupStep_nil]
          apply ih
          rcases h with h | ⟨g', hg', hne⟩
          · exact Or.inl h
          · rcases List.mem_cons.mp hg' with h | hg2
            · exact absurd h.symm (Ne.symm hne)
            · exact Or.inr ⟨g', hg2, hne⟩
      | cons r others =>
          exact ih _ (Or.inl (bvtsGroupStep_trees_ne_nil tp o uavs sid st r others))

/-- When the destinations give at least one group,
`build_virtual_tree_structures` leaves a non-empty tree dictionary. -/
theorem bvts_trees_ne_nil (tp : Bool) (cfg : Config) (o : TreeOracles)
    (uavs : List UAV) (st : TreeProtocolState) (dest_ids : Option (List Nat))
    (sid : Option Nat)
    (h : groupRootsByDistance uavs (dest_ids.getD (uavs.map UAV.uid)) ≠ []) :
    ∃ l, (buildVirtualTreeStructures tp cfg o uavs st dest_ids sid).virtual_trees =
      some l ∧ l ≠ [] := by
  have hex : ∃ g ∈ groupRootsByDistance uavs (dest_ids.getD (uavs.map UAV.uid)),
      g ≠ [] := by
    cases hgr : groupRootsByDistance uavs (dest_ids.getD (uavs.map UAV.uid)) with
    | nil => exact absurd hgr h
    | cons g gs =>
        have hmem : g ∈ groupRootsByDistance uavs
            (dest_ids.getD (uavs.map UAV.uid)) := by
          rw [hgr]; exact List.mem_cons_self g gs
        have hsg := groupOuter_inv uavs (dest_ids.getD (uavs.map UAV.uid))
          (dest_ids.getD (uavs.map UAV.uid)).enum ([], [])
          (fun _ hj => snd_mem_of_mem_enum hj)
          (fun g hg => absurd hg (List.not_mem_nil g)) g hmem
        obtain ⟨seed, rest, hgeq, _, _⟩ := hsg
        refine ⟨g, List.mem_cons_self g gs, ?_⟩
        rw [hgeq]
        simp
  simp only [buildVirtualTreeStructures]
  by_cases hP : cfg.collect_energy_stats ∧ ¬ st.tree_created
  · rw [if_pos hP]
    exact bvtsFold_trees tp o uavs sid _ _ (Or.inr hex)
  · rw [if_neg hP]
    exact bvtsFold_trees tp o uavs sid _ _ (Or.inr hex)

/-- Caching a next-hop position changes no routing-visible packet field. -/
theorem recordNextHop_fields (p : Packet) (hop_id : Nat) (pos : ℚ × ℚ × ℚ) :
    (p.record_next_hop_position hop_id pos).path = p.path ∧
    (p.record_next_hop_position hop_id pos).status = p.status ∧
    (p.record_next_hop_position hop_id pos).source_id = p.source_id ∧
    (p.record_next_hop_position hop_id pos).destination_id = p.destination_id := by
  unfold Packet.record_next_hop_position
  split_ifs <;> exact ⟨rfl, rfl, rfl, rfl⟩

/-- The position-caching loop of packet creation changes no routing-visible
packet field. -/
theorem recordFold_fields (uavs : List UAV) :
    ∀ (ids : List Nat) (p : Packet),
      ((ids.foldl (fun p nid =>
          match uavById uavs nid with
          | some u => p.record_next_hop_position nid (u.x, u.y, u.z)
          | none => p) p).path = p.path ∧
       (ids.foldl (fun p nid =>
          match uavById uavs nid with
          | some u => p.record_next_hop_position nid (u.x, u.y, u.z)
          | none => p) p).status = p.status ∧
       (ids.foldl (fun p nid =>
          match uavById uavs nid with
          | some u => p.record_next_hop_position nid (u.x, u.y, u.z)
          | none => p) p).source_id = p.source_id ∧
       (ids.foldl (fun p nid =>
          match uavById uavs nid with
          | some u => p.record_next_hop_position nid (u.x, u.y, u.z)
          | none => p) p).destination_id = p.destination_id) := by
  intro ids
  induction ids with
  | nil => intro p; exact ⟨rfl, rfl, rfl, rfl⟩
  | cons n ns ih =>
      intro p
      rw [List.foldl_cons]
      cases hu : uavById uavs n with
      | none => exact ih p
      | some u =>
          obtain ⟨h1, h2, h3, h4⟩ := ih (p.record_next_hop_position n (u.x, u.y, u.z))
          obtain ⟨g1, g2, g3, g4⟩ := recordNextHop_fields p n (u.x, u.y, u.z)
          exact ⟨h1.trans g1, h2.trans g2, h3.trans g3, h4.trans g4⟩

/-- One packet creation: the packet carries the computed path in `in_transit`
state between the requested endpoints, and the state gains exactly that
packet — appended to the network list and the source queue — with the UAV
list, graph and clock untouched. -/
theorem createOnePacket_spec (cfg : Config) (src dst : Nat)
    (path_ids : List Nat) (st : SimState) :
    (createOnePacket cfg src dst path_ids st).2.path = path_ids ∧
    (createOnePacket cfg src dst path_ids st).2.status = "in_transit" ∧
    (createOnePacket cfg src dst path_ids st).2.source_id = src ∧
    (createOnePacket cfg src dst path_ids st).2.destination_id = dst ∧
    (createOnePacket cfg src dst path_ids st).1.packets_in_network =
      st.packets_in_network ++ [(createOnePacket cfg src dst path_ids st).2] ∧
    (createOnePacket cfg src dst path_ids st).1.txQueue src =
      st.txQueue src ++ [(createOnePacket cfg src dst path_ids st).2] ∧
    (createOnePacket cfg src dst path_ids st).1.uavs = st.uavs ∧
    (createOnePacket cfg src dst path_ids st).1.uav_graph = st.uav_graph ∧
    (createOnePacket cfg src dst path_ids st).1.simulation_time =
      st.simulation_time := by
  have hdrop : ∀ (p : Packet),
      (if cfg.use_dhytp then
        p.add_event cfg "dhytp_init" src 0 st.simulation_time "DHyTP初始化"
      else if cfg.use_ctmp then
        p.add_event cfg "cmtp_init" src 0 st.simulation_time "CMTP初始化"
      else p) = p := by
    intro p
    by_cases h1 : cfg.use_dhytp
    · rw [if_pos h1, addEvent_drop]
      exact ⟨by decide, by decide⟩
    · rw [if_neg h1]
      by_cases h2 : cfg.use_ctmp
      · rw [if_pos h2, addEvent_drop]
        exact ⟨by decide, by decide⟩
      · rw [if_neg h2]
  unfold createOnePacket
  dsimp only
  rw [hdrop]
  simp only [SimState.addPacketToQueue, SimState.txQueue]
  refine ⟨?_, ?_, ?_, ?_, by trivial, ?_, by trivial, by trivial, by trivial⟩
  · exact (recordFold_fields st.uavs path_ids.tail _).1
  · exact (recordFold_fields st.uavs path_ids.tail _).2.1
  · exact (recordFold_fields st.uavs path_ids.tail _).2.2.1
  · exact (recordFold_fields st.uavs path_ids.tail _).2.2.2
  · rw [lookup_assocSet_self]
    rfl

/-- The packet-creation loop creates one packet per iteration, each carrying
the computed path, all appended in order to the network list and the source
queue. -/
theorem createLoop_go (cfg : Config) (src dst : Nat) (path_ids : List Nat) :
    ∀ (l : List Nat) (st : SimState) (created : List Packet),
      ∃ pkts : List Packet,
        (l.foldl (createStep cfg src dst path_ids) (st, created)).2 =
          created ++ pkts ∧
        pkts.length = l.length ∧
        (∀ p ∈ pkts, p.path = path_ids ∧ p.status = "in_transit" ∧
          p.source_id = src ∧ p.destination_id = dst) ∧
        (l.foldl (createStep cfg src dst path_ids) (st, created)).1.packets_in_network =
          st.packets_in_network ++ pkts ∧
        (l.foldl (createStep cfg src dst path_ids) (st, created)).1.txQueue src =
          st.txQueue src ++ pkts ∧
        (l.foldl (createStep cfg src dst path_ids) (st, created)).1.uavs = st.uavs ∧
        (l.foldl (createStep cfg src dst path_ids) (st, created)).1.uav_graph =
          st.uav_graph := by
  intro l
  induction l with
  | nil =>
      intro st created
      exact ⟨[], by simp, rfl, fun p hp => absurd hp (List.not_mem_nil p),
        by simp, by simp, rfl, rfl⟩
  | cons i l ih =>
      intro st created
      rw [List.foldl_cons]
      have hstep : createStep cfg src dst path_ids (st, created) i =
          ((createOnePacket cfg src dst path_ids st).1,
           created ++ [(createOnePacket cfg src dst path_ids st).2]) := rfl
      rw [hstep]
      obtain ⟨pkts, h2, hlen, hgood, hnet, hq, huavs, hgraph⟩ :=
        ih (createOnePacket cfg src dst path_ids st).1
          (created ++ [(createOnePacket cfg src dst path_ids st).2])
      obtain ⟨cpath, cstat, csrc, cdst, cnet, cq, cuavs, cgraph, _⟩ :=
        createOnePacket_spec cfg src dst path_ids st
      refine ⟨(createOnePacket cfg src dst path_ids st).2 :: pkts,
        ?_, ?_, ?_, ?_, ?_, ?_, ?_⟩
      · rw [h2]
        simp
      · simp [hlen]
      · intro p hp
        rcases List.mem_cons.mp hp with h | h
        · subst h
          exact ⟨cpath, cstat, csrc, cdst⟩
        · exact hgood p h
      · rw [hnet, cnet]
        simp
      · rw [hq, cq]
        simp
      · rw [huavs, cuavs]
      · rw [hgraph, cgraph]

/-- A strict key comparison is also non-strict. -/
theorem keyLe_of_keyLt {a b : DijkEntry} (h : keyLt a b) : keyLe a b :=
  h.imp id (fun hh => ⟨hh.1, le_of_lt hh.2⟩)

/-- Key totality: what is not strictly above is non-strictly below. -/
theorem keyLe_of_not_keyLt {a b : DijkEntry} (h : ¬ keyLt b a) : keyLe a b := by
  rcases lt_trichotomy a.d b.d with h1 | h1 | h1
  · exact Or.inl h1
  · refine Or.inr ⟨h1, ?_⟩
    by_contra hc
    exact h (Or.inr ⟨h1.symm, Nat.lt_of_not_le hc⟩)
  · exact absurd (Or.inl h1) h

/-- Non-strict key comparison is transitive. -/
theorem keyLe_trans {a b c : DijkEntry} (h1 : keyLe a b) (h2 : keyLe b c) :
    keyLe a c := by
  rcases h1 with h1 | ⟨h1, h1'⟩ <;> rcases h2 with h2 | ⟨h2, h2'⟩
  · exact Or.inl (lt_trans h1 h2)
  · exact Or.inl (h2 ▸ h1)
  · exact Or.inl (h1 ▸ h2)
  · exact Or.inr ⟨h1.trans h2, le_trans h1' h2'⟩

/-- Non-strict key comparison bounds the distance component. -/
theorem keyLe_d {a b : DijkEntry} (h : keyLe a b) : a.d ≤ b.d := by
  rcases h with h | ⟨h, _⟩
  · exact le_of_lt h
  · exact le_of_eq h

/-- The one-step equation of the minimum scan. -/
theorem findMinEntry_cons (e x : DijkEntry) (xs : List DijkEntry) :
    findMinEntry e (x :: xs) =
      if keyLt x e then findMinEntry x xs else findMinEntry e xs := by
  unfold findMinEntry
  rw [List.foldl_cons]
  by_cases hx : keyLt x e
  · rw [if_pos hx, if_pos hx]
  · rw [if_neg hx, if_neg hx]

/-- The scanned minimum is the start or a member. -/
theorem findMinEntry_mem (l : List DijkEntry) :
    ∀ e, findMinEntry e l = e ∨ findMinEntry e l ∈ l := by
  induction l with
  | nil => intro e; exact Or.inl rfl
  | cons x xs ih =>
      intro e
      rw [findMinEntry_cons]
      by_cases hx : keyLt x e
      · rw [if_pos hx]
        rcases ih x with h | h
        · right
          rw [h]
          exact List.mem_cons_self x xs
        · exact Or.inr (List.mem_cons_of_mem x h)
      · rw [if_neg hx]
        rcases ih e with h | h
        · exact Or.inl h
        · exact Or.inr (List.mem_cons_of_mem x h)

/-- The scanned minimum is below the start and every member. -/
theorem findMinEntry_le (l : List DijkEntry) :
    ∀ e, keyLe (findMinEntry e l) e ∧ ∀ x ∈ l, keyLe (findMinEntry e l) x := by
  induction l with
  | nil =>
      intro e
      exact ⟨Or.inr ⟨rfl, le_refl _⟩, fun x hx => absurd hx (List.not_mem_nil x)⟩
  | cons x xs ih =>
      intro e
      rw [findMinEntry_cons]
      by_cases hx : keyLt x e
      · rw [if_pos hx]
        obtain ⟨h1, h2⟩ := ih x
        refine ⟨keyLe_trans h1 (keyLe_of_keyLt hx), ?_⟩
        intro y hy
        rcases List.mem_cons.mp hy with h | h
        · rw [h]
          exact h1
        · exact h2 y h
      · rw [if_neg hx]
        obtain ⟨h1, h2⟩ := ih e
        refine ⟨h1, ?_⟩
        intro y hy
        rcases List.mem_cons.mp hy with h | h
        · rw [h]
          exact keyLe_trans h1 (keyLe_of_not_keyLt hx)
        · exact h2 y h

/-- `heapq.heappop` pops a member that is minimal in `(dist, entry_count)`
lexicographic order — at equal cost the smaller (earlier-inserted) entry
counter wins — and leaves the rest. -/
theorem popMin_spec (pq : List DijkEntry) (m : DijkEntry) (rest : List DijkEntry)
    (h : popMin pq = some (m, rest)) :
    m ∈ pq ∧ rest = pq.erase m ∧ ∀ e ∈ pq, keyLe m e := by
  cases pq with
  | nil => cases h
  | cons x xs =>
      have h' : (some (findMinEntry x xs, (x :: xs).erase (findMinEntry x xs)) :
          Option (DijkEntry × List DijkEntry)) = some (m, rest) := h
      injection h' with h''
      have hm1 : m = findMinEntry x xs := (congrArg Prod.fst h'').symm
      have hm2 : rest = (x :: xs).erase (findMinEntry x xs) :=
        (congrArg Prod.snd h'').symm
      subst hm1
      subst hm2
      refine ⟨?_, rfl, ?_⟩
      · rcases findMinEntry_mem xs x with h1 | h1
        · rw [h1]
          exact List.mem_cons_self x xs
        · exact List.mem_cons_of_mem x h1
      · intro e he
        obtain ⟨h1, h2⟩ := findMinEntry_le xs x
        rcases List.mem_cons.mp he with h3 | h3
        · rw [h3]
          exact h1
        · exact h2 e h3

/-- Walk weights are non-negative when edge weights are. -/
theorem walkWeight_nonneg (w : Nat → Nat → WithTop ℚ)
    (hw : ∀ a b, 0 ≤ w a b) : ∀ q, 0 ≤ walkWeight w q := by
  intro q
  induction q with
  | nil => exact le_refl 0
  | cons a q ih =>
      cases q with
      | nil => exact le_refl 0
      | cons b rest => exact add_nonneg (hw a b) ih

/-- Appending a final node adds the closing edge's weight. -/
theorem walkWeight_concat (w : Nat → Nat → WithTop ℚ) :
    ∀ (q : List Nat) (u v : Nat), q.getLast? = some u →
      walkWeight w (q ++ [v]) = walkWeight w q + w u v := by
  intro q
  induction q with
  | nil => intro u v h; cases h
  | cons a q ih =>
      intro u v h
      cases q with
      | nil =>
          injection h with h
          subst h
          show w a v + walkWeight w [v] = walkWeight w [a] + w a v
          show w a v + 0 = 0 + w a v
          rw [add_zero, zero_add]
      | cons b q' =>
          have hlast : (b :: q').getLast? = some u := h
          show w a b + walkWeight w ((b :: q') ++ [v]) =
            (w a b + walkWeight w (b :: q')) + w u v
          rw [ih u v hlast, add_assoc]

/-- The one-node walk at the source. -/
theorem isWalk_singleton (adj : Nat → List Nat) (s : Nat) :
    IsWalk adj s s [s] :=
  ⟨rfl, rfl, List.chain'_singleton s⟩

/-- A walk is never empty. -/
theorem isWalk_ne_nil {adj : Nat → List Nat} {s t : Nat} {q : List Nat}
    (h : IsWalk adj s t q) : q ≠ [] := by
  intro hq
  subst hq
  cases h.1

/-- Extending a walk along one more edge. -/
theorem isWalk_concat {adj : Nat → List Nat} {s u : Nat} {q : List Nat}
    (h : IsWalk adj s u q) (v : Nat) (hv : v ∈ adj u) :
    IsWalk adj s v (q ++ [v]) := by
  obtain ⟨h1, h2, h3⟩ := h
  refine ⟨?_, ?_, ?_⟩
  · cases q with
    | nil => cases h1
    | cons a t => exact h1
  · exact List.getLast?_concat q
  · rw [List.chain'_append]
    refine ⟨h3, List.chain'_singleton v, ?_⟩
    intro x hx y hy
    rw [h2] at hx
    injection hx with hx
    subst hx
    injection hy with hy
    subst hy
    exact hv

/-- Decomposing a two-node-or-longer walk at its last edge. -/
theorem isWalk_unconcat {adj : Nat → List Nat} {s v : Nat} {q : List Nat}
    (hq : q ≠ []) (h : IsWalk adj s v (q ++ [v])) :
    ∃ u, q.getLast? = some u ∧ IsWalk adj s u q ∧ v ∈ adj u := by
  obtain ⟨h1, h2, h3⟩ := h
  rw [List.chain'_append] at h3
  obtain ⟨hc1, _, hc3⟩ := h3
  cases q with
  | nil => exact absurd rfl hq
  | cons a t =>
      have hlast : (a :: t).getLast? = some ((a :: t).getLast (by simp)) :=
        List.getLast?_eq_getLast (a :: t) (by simp)
      refine ⟨(a :: t).getLast (by simp), hlast, ⟨h1, hlast, hc1⟩, ?_⟩
      exact hc3 _ hlast _ rfl

/-- The improving case of one relaxation. -/
theorem relaxStep_pos (w : Nat → Nat → WithTop ℚ) (e : DijkEntry)
    (dist : Nat → WithTop ℚ) (counter : Nat) (pq : List DijkEntry) (nb : Nat)
    (h : e.d + w e.node nb < dist nb) :
    relaxStep w e (dist, counter, pq) nb =
      (fun x => if x = nb then e.d + w e.node nb else dist x, counter + 1,
       pq ++ [⟨e.d + w e.node nb, counter + 1, nb, e.path ++ [nb]⟩]) := by
  unfold relaxStep
  dsimp only
  rw [if_pos h]

/-- The non-improving case of one relaxation. -/
theorem relaxStep_neg (w : Nat → Nat → WithTop ℚ) (e : DijkEntry)
    (dist : Nat → WithTop ℚ) (counter : Nat) (pq : List DijkEntry) (nb : Nat)
    (h : ¬ e.d + w e.node nb < dist nb) :
    relaxStep w e (dist, counter, pq) nb = (dist, counter, pq) := by
  unfold relaxStep
  dsimp only
  rw [if_neg h]

/-- What one pass of neighbour relaxation does: tentative distances only
drop, and exactly to `e.d + w(e.node, ·)` with a matching pushed entry; every
scanned neighbour ends relaxed; the queue only grows, and every new entry is
a push for a scanned neighbour. -/
theorem relaxAll_spec (w : Nat → Nat → WithTop ℚ) (m : DijkEntry) :
    ∀ (ns : List Nat) (dist : Nat → WithTop ℚ) (counter : Nat)
      (pq : List DijkEntry),
      (∀ v, (relaxAll w m ns dist counter pq).1 v ≤ dist v) ∧
      (∀ v, (relaxAll w m ns dist counter pq).1 v = dist v ∨
         ((relaxAll w m ns dist counter pq).1 v = m.d + w m.node v ∧
          (relaxAll w m ns dist counter pq).1 v < dist v ∧
          ∃ e ∈ (relaxAll w m ns dist counter pq).2.2, e.node = v ∧
            e.d = m.d + w m.node v ∧ e.path = m.path ++ [v])) ∧
      (∀ v ∈ ns, (relaxAll w m ns dist counter pq).1 v ≤ m.d + w m.node v) ∧
      (∀ e ∈ pq, e ∈ (relaxAll w m ns dist counter pq).2.2) ∧
      (∀ e ∈ (relaxAll w m ns dist counter pq).2.2, e ∈ pq ∨
         (e.node ∈ ns ∧ e.d = m.d + w m.node e.node ∧
          e.path = m.path ++ [e.node])) := by
  intro ns
  induction ns with
  | nil =>
      intro dist counter pq
      exact ⟨fun v => le_refl _, fun v => Or.inl rfl,
        fun v hv => absurd hv (List.not_mem_nil v),
        fun e he => he, fun e he => Or.inl he⟩
  | cons x rest ih =>
      intro dist counter pq
      by_cases himp : m.d + w m.node x < dist x
      · have heq : relaxAll w m (x :: rest) dist counter pq =
            relaxAll w m rest
              (fun y => if y = x then m.d + w m.node x else dist y)
              (counter + 1)
              (pq ++ [⟨m.d + w m.node x, counter + 1, x, m.path ++ [x]⟩]) := by
          unfold relaxAll
          rw [List.foldl_cons, relaxStep_pos w m dist counter pq x himp]
        obtain ⟨ih1, ih2, ih3, ih4, ih5⟩ := ih
          (fun y => if y = x then m.d + w m.node x else dist y) (counter + 1)
          (pq ++ [⟨m.d + w m.node x, counter + 1, x, m.path ++ [x]⟩])
        rw [heq]
        refine ⟨?_, ?_, ?_, ?_, ?_⟩
        · intro u
          refine le_trans (ih1 u) ?_
          by_cases hu : u = x
          · subst hu
            rw [if_pos rfl]
            exact le_of_lt himp
          · rw [if_neg hu]
        · intro u
          rcases ih2 u with h | ⟨h1, h2, e, he, hn, hd, hp⟩
          · by_cases hu : u = x
            · subst hu
              rw [if_pos rfl] at h
              right
              refine ⟨h, ?_, ?_⟩
              · rw [h]
                exact himp
              · exact ⟨⟨m.d + w m.node u, counter + 1, u, m.path ++ [u]⟩,
                  ih4 _ (List.mem_append_right pq (List.mem_singleton.mpr rfl)),
                  rfl, rfl, rfl⟩
            · left
              rw [if_neg hu] at h
              exact h
          · right
            refine ⟨h1, ?_, e, he, hn, hd, hp⟩
            refine lt_of_lt_of_le h2 ?_
            by_cases hu : u = x
            · subst hu
              rw [if_pos rfl]
              exact le_of_lt himp
            · rw [if_neg hu]
        · intro u hu
          rcases List.mem_cons.mp hu with h | h
          · subst h
            refine le_trans (ih1 u) ?_
            rw [if_pos rfl]
          · exact ih3 u h
        · intro e he
          exact ih4 e (List.mem_append_left _ he)
        · intro e he
          rcases ih5 e he with h | ⟨h1, h2, h3⟩
          · rcases List.mem_append.mp h with h | h
            · exact Or.inl h
            · have : e = ⟨m.d + w m.node x, counter + 1, x, m.path ++ [x]⟩ :=
                List.mem_singleton.mp h
              subst this
              exact Or.inr ⟨List.mem_cons_self x rest, rfl, rfl⟩
          · exact Or.inr ⟨List.mem_cons_of_mem x h1, h2, h3⟩
      · have heq : relaxAll w m (x :: rest) dist counter pq =
            relaxAll w m rest dist counter pq := by
          unfold relaxAll
          rw [List.foldl_cons, relaxStep_neg w m dist counter pq x himp]
        obtain ⟨ih1, ih2, ih3, ih4, ih5⟩ := ih dist counter pq
        rw [heq]
        refine ⟨ih1, ih2, ?_, ih4, ?_⟩
        · intro v hv
          rcases List.mem_cons.mp hv with h | h
          · subst h
            exact le_trans (ih1 v) (le_of_not_lt himp)
          · exact ih3 v h
        · intro e he
          rcases ih5 e he with h | ⟨h1, h2, h3⟩
          · exact Or.inl h
          · exact Or.inr ⟨List.mem_cons_of_mem x h1, h2, h3⟩

/-- The frontier-crossing lemma: under the invariant, every finite-weight
walk from the source to an unsettled node is covered by a queue entry of no
larger key. -/
theorem dijk_cover (w : Nat → Nat → WithTop ℚ) (adj : Nat → List Nat)
    (source target : Nat) (hw : ∀ a b, 0 ≤ w a b)
    (S : List Nat) (dist : Nat → WithTop ℚ) (pq : List DijkEntry)
    (inv : DijkInv w adj source target S dist pq) :
    ∀ (q : List Nat) (v : Nat), IsWalk adj source v q →
      walkWeight w q < ⊤ → v ∉ S →
      ∃ e ∈ pq, e.d ≤ walkWeight w q := by
  intro q
  induction q using List.reverseRecOn with
  | nil =>
      intro v hwk
      exact absurd hwk.1 (by simp)
  | append_singleton q' v' ih =>
      intro v hwk hfin hvS
      have hv : v = v' := by
        have h2 := hwk.2.1
        rw [List.getLast?_concat] at h2
        injection h2 with h2
        exact h2.symm
      subst hv
      by_cases hq' : q' = []
      · subst hq'
        have hsrc : v = source := by
          have h1 := hwk.1
          simp at h1
          exact h1
        have hd : dist source < ⊤ := by
          rw [inv.dist_source]
          exact WithTop.coe_lt_top 0
        rcases inv.frontier source hd with h | ⟨e, he, _, hdq⟩
        · rw [hsrc] at hvS
          exact absurd h hvS
        · refine ⟨e, he, ?_⟩
          rw [hdq, inv.dist_source]
          exact walkWeight_nonneg w hw _
      · obtain ⟨u, hlast, hwalk', hedge⟩ := isWalk_unconcat hq' hwk
        have hsplit : walkWeight w (q' ++ [v]) = walkWeight w q' + w u v :=
          walkWeight_concat w q' u v hlast
        have hfin' : walkWeight w q' < ⊤ := by
          rw [hsplit] at hfin
          exact (WithTop.add_lt_top.mp hfin).1
        by_cases huS : u ∈ S
        · have hdv : dist v ≤ walkWeight w q' + w u v :=
            le_trans (inv.settled_relaxed u huS v hedge)
              (add_le_add_right (inv.settled_opt u huS q' hwalk') _)
          have hdvfin : dist v < ⊤ :=
            lt_of_le_of_lt (hdv.trans_eq hsplit.symm) hfin
          rcases inv.frontier v hdvfin with h | ⟨e, he, _, hdq⟩
          · exact absurd h hvS
          · refine ⟨e, he, ?_⟩
            rw [hdq, hsplit]
            exact hdv
        · obtain ⟨e, he, hed⟩ := ih u hwalk' hfin' huS
          refine ⟨e, he, ?_⟩
          rw [hsplit]
          exact le_trans hed (le_add_of_nonneg_right (hw u v))

/-- Main loop correctness: from any state satisfying the invariant, a
terminating run either reports no path — and then no walk to the target has
finite weight — or returns a walk to the target of exactly the reported
weight, minimal among all walks. -/
theorem dijkstraLoop_correct (w : Nat → Nat → WithTop ℚ) (adj : Nat → List Nat)
    (source target : Nat) (hw : ∀ a b, 0 ≤ w a b) :
    ∀ (fuel : Nat) (S : List Nat) (dist : Nat → WithTop ℚ) (counter : Nat)
      (pq : List DijkEntry),
      DijkInv w adj source target S dist pq →
      ∀ res, dijkstraLoop w adj target fuel dist counter pq = some res →
        (res = none → ∀ q, IsWalk adj source target q → walkWeight w q = ⊤) ∧
        (∀ p d, res = some (p, d) → IsWalk adj source target p ∧
          walkWeight w p = d ∧
          ∀ q, IsWalk adj source target q → d ≤ walkWeight w q) := by
  intro fuel
  induction fuel with
  | zero =>
      intro S dist counter pq inv res h
      cases h
  | succ fuel ih =>
      intro S dist counter pq inv res h
      cases hpop : popMin pq with
      | none =>
          have hpq : pq = [] := by
            cases pq with
            | nil => rfl
            | cons x xs => simp [popMin] at hpop
          subst hpq
          have h' : (some none : Option (Option (List Nat × WithTop ℚ))) =
              some res := h
          injection h' with h'
          subst h'
          constructor
          · intro _ q hq
            by_contra hne
            have hfin : walkWeight w q < ⊤ := lt_top_iff_ne_top.mpr hne
            obtain ⟨e, he, _⟩ := dijk_cover w adj source target hw S dist []
              inv q target hq hfin inv.target_unsettled
            exact absurd he (List.not_mem_nil e)
          · intro p d hpd
            cases hpd
      | some pair =>
          obtain ⟨m, rest⟩ := pair
          obtain ⟨hm_mem, hrest, hmin⟩ := popMin_spec pq m rest hpop
          subst hrest
          have h' : (match popMin pq with
              | none => (some none : Option (Option (List Nat × WithTop ℚ)))
              | some (e, r) =>
                  if dist e.node < e.d then
                    dijkstraLoop w adj target fuel dist counter r
                  else if e.node = target then
                    some (some (e.path, e.d))
                  else
                    dijkstraLoop w adj target fuel
                      (relaxAll w e (adj e.node) dist counter r).1
                      (relaxAll w e (adj e.node) dist counter r).2.1
                      (relaxAll w e (adj e.node) dist counter r).2.2) =
              some res := h
          rw [hpop] at h'
          dsimp only at h'
          by_cases hstale : dist m.node < m.d
          · rw [if_pos hstale] at h'
            refine ih S dist counter (pq.erase m) ?_ res h'
            refine ⟨?_, ?_, inv.settled_opt, inv.settled_relaxed, ?_,
              inv.dist_source, inv.target_unsettled⟩
            · intro e he
              exact inv.entries e (List.mem_of_mem_erase he)
            · intro v hv
              rcases inv.frontier v hv with h1 | ⟨e, he, hn, hdq⟩
              · exact Or.inl h1
              · have hne : e ≠ m := by
                  intro hcon
                  subst hcon
                  rw [hn, hdq] at hstale
                  exact lt_irrefl _ hstale
                exact Or.inr ⟨e, (List.mem_erase_of_ne hne).mpr he, hn, hdq⟩
            · intro u hu e he
              exact inv.settled_le_queue u hu e (List.mem_of_mem_erase he)
          · rw [if_neg hstale] at h'
            have hdm : dist m.node = m.d :=
              le_antisymm (inv.entries m hm_mem).2.2 (le_of_not_lt hstale)
            by_cases htgt : m.node = target
            · rw [if_pos htgt] at h'
              injection h' with h'
              subst h'
              constructor
              · intro hcon
                cases hcon
              · intro p d hpd
                injection hpd with hpd
                have hp : m.path = p := congrArg Prod.fst hpd
                have hd : m.d = d := congrArg Prod.snd hpd
                subst hp
                subst hd
                obtain ⟨hwalk, hweight, _⟩ := inv.entries m hm_mem
                rw [htgt] at hwalk
                refine ⟨hwalk, hweight, ?_⟩
                intro q hq
                by_cases hfin : walkWeight w q < ⊤
                · obtain ⟨e, he, hed⟩ := dijk_cover w adj source target hw S dist
                    pq inv q target hq hfin inv.target_unsettled
                  exact le_trans (keyLe_d (hmin e he)) hed
                · have htop : walkWeight w q = ⊤ := by
                    by_contra hne
                    exact hfin (lt_top_iff_ne_top.mpr hne)
                  rw [htop]
                  exact le_top
            · rw [if_neg htgt] at h'
              obtain ⟨r1, r2, r3, r4, r5⟩ :=
                relaxAll_spec w m (adj m.node) dist counter (pq.erase m)
              have hmd0 : (0 : WithTop ℚ) ≤ m.d := by
                have hww := (inv.entries m hm_mem).2.1
                rw [← hww]
                exact walkWeight_nonneg w hw _
              have hstable : ∀ v, dist v ≤ m.d →
                  (relaxAll w m (adj m.node) dist counter (pq.erase m)).1 v =
                    dist v := by
                intro v hv
                rcases r2 v with h1 | ⟨h1, h2, _⟩
                · exact h1
                · exfalso
                  have hlt : m.d + w m.node v < m.d := by
                    rw [← h1]
                    exact lt_of_lt_of_le h2 hv
                  exact absurd hlt
                    (not_lt.mpr (le_add_of_nonneg_right (hw m.node v)))
              have hm_stable :
                  (relaxAll w m (adj m.node) dist counter (pq.erase m)).1 m.node =
                    m.d := by
                rw [hstable m.node (le_of_eq hdm), hdm]
              have hS_stable : ∀ u ∈ S,
                  (relaxAll w m (adj m.node) dist counter (pq.erase m)).1 u =
                    dist u := by
                intro u hu
                exact hstable u (inv.settled_le_queue u hu m hm_mem)
              have hminS : ∀ u ∈ S, dist u ≤ m.d :=
                fun u hu => inv.settled_le_queue u hu m hm_mem
              have hopt_m : ∀ q, IsWalk adj source m.node q →
                  m.d ≤ walkWeight w q := by
                intro q hq
                by_cases hmS : m.node ∈ S
                · have hh := inv.settled_opt m.node hmS q hq
                  rw [hdm] at hh
                  exact hh
                · by_cases hfin : walkWeight w q < ⊤
                  · obtain ⟨e, he, hed⟩ := dijk_cover w adj source target hw S
                      dist pq inv q m.node hq hfin hmS
                    exact le_trans (keyLe_d (hmin e he)) hed
                  · have htop : walkWeight w q = ⊤ := by
                      by_contra hne
                      exact hfin (lt_top_iff_ne_top.mpr hne)
                    rw [htop]
                    exact le_top
              refine ih (m.node :: S)
                (relaxAll w m (adj m.node) dist counter (pq.erase m)).1
                (relaxAll w m (adj m.node) dist counter (pq.erase m)).2.1
                (relaxAll w m (adj m.node) dist counter (pq.erase m)).2.2
                ?_ res h'
              refine ⟨?_, ?_, ?_, ?_, ?_, ?_, ?_⟩
              · intro e he
                rcases r5 e he with h1 | ⟨h1, h2, h3⟩
                · obtain ⟨ha, hb, hc⟩ := inv.entries e (List.mem_of_mem_erase h1)
                  exact ⟨ha, hb, le_trans (r1 e.node) hc⟩
                · obtain ⟨hwalkm, hweightm, _⟩ := inv.entries m hm_mem
                  refine ⟨?_, ?_, ?_⟩
                  · rw [h3]
                    exact isWalk_concat hwalkm e.node h1
                  · rw [h3, walkWeight_concat w m.path m.node e.node hwalkm.2.1,
                      hweightm, ← h2]
                  · rw [h2]
                    exact r3 e.node h1
              · intro v hv
                rcases r2 v with h1 | ⟨h1, h2, e, he, hn, hd, hp⟩
                · rw [h1] at hv
                  rcases inv.frontier v hv with h2 | ⟨e, he, hn, hdq⟩
                  · exact Or.inl (List.mem_cons_of_mem _ h2)
                  · by_cases hem : e = m
                    · subst hem
                      left
                      rw [← hn]
                      exact List.mem_cons_self _ _
                    · right
                      refine ⟨e, r4 e ((List.mem_erase_of_ne hem).mpr he), hn, ?_⟩
                      rw [hdq, h1]
                · right
                  refine ⟨e, he, hn, ?_⟩
                  rw [hd, ← h1]
              · intro u hu q hq
                rcases List.mem_cons.mp hu with h1 | h1
                · subst h1
                  rw [hm_stable]
                  exact hopt_m q hq
                · rw [hS_stable u h1]
                  exact inv.settled_opt u h1 q hq
              · intro u hu x hx
                rcases List.mem_cons.mp hu with h1 | h1
                · subst h1
                  rw [hm_stable]
                  exact r3 x hx
                · rw [hS_stable u h1]
                  exact le_trans (r1 x) (inv.settled_relaxed u h1 x hx)
              · intro u hu e he
                rcases List.mem_cons.mp hu with h1 | h1
                · subst h1
                  rw [hm_stable]
                  rcases r5 e he with h2 | ⟨_, h2, _⟩
                  · exact keyLe_d (hmin e (List.mem_of_mem_erase h2))
                  · rw [h2]
                    exact le_add_of_nonneg_right (hw m.node e.node)
                · rw [hS_stable u h1]
                  rcases r5 e he with h2 | ⟨_, h2, _⟩
                  · exact inv.settled_le_queue u h1 e (List.mem_of_mem_erase h2)
                  · rw [h2]
                    exact le_trans (hminS u h1)
                      (le_add_of_nonneg_right (hw m.node e.node))
              · have hsm : dist source ≤ m.d := by
                  rw [inv.dist_source]
                  exact hmd0
                rw [hstable source hsm, inv.dist_source]
              · intro hcon
                rcases List.mem_cons.mp hcon with h1 | h1
                · exact htgt h1.symm
                · exact inv.target_unsettled h1

/-- With pairwise-distinct UAV ids, equal ids in the enumeration mean equal
indices. -/
theorem enum_uid_inj (l : List UAV) (hnd : (l.map UAV.uid).Nodup)
    {p q : Nat × UAV} (hp : p ∈ l.enum) (hq : q ∈ l.enum)
    (h : p.2.uid = q.2.uid) : p.1 = q.1 := by
  obtain ⟨i, x⟩ := p
  obtain ⟨j, y⟩ := q
  have h1 := List.mk_mem_enum_iff_getElem?.mp hp
  have h2 := List.mk_mem_enum_iff_getElem?.mp hq
  have hm1 : (l.map UAV.uid)[i]? = some x.uid := by
    rw [List.getElem?_map, h1]
    rfl
  have hm2 : (l.map UAV.uid)[j]? = some y.uid := by
    rw [List.getElem?_map, h2]
    rfl
  have hbound : i < (l.map UAV.uid).length := by
    rw [List.length_map]
    obtain ⟨hb, _⟩ := List.getElem?_eq_some.mp h1
    exact hb
  refine List.getElem?_inj hbound hnd ?_
  rw [hm1, hm2]
  rw [show x.uid = y.uid from h]

/-- Looking up a UAV's id in an id-keyed dictionary built over the
enumeration finds that UAV's row, when ids are pairwise distinct. -/
theorem alookup_graph_enumFrom {β : Type} (g : Nat → UAV → β) :
    ∀ (l : List UAV) (n : Nat) (a : UAV), a ∈ l → (l.map UAV.uid).Nodup →
      ∃ i, (i, a) ∈ l.enumFrom n ∧
        alookup ((l.enumFrom n).map (fun iu => (iu.2.uid, g iu.1 iu.2))) a.uid =
          some (g i a) := by
  intro l
  induction l with
  | nil => intro n a ha _; cases ha
  | cons x xs ih =>
      intro n a ha hnd
      rcases List.mem_cons.mp ha with h | h
      · subst h
        refine ⟨n, List.mem_cons_self _ _, ?_⟩
        simp only [List.enumFrom_cons, List.map_cons, alookup]
        rw [if_pos trivial]
      · have hne : x.uid ≠ a.uid := by
          have hx := (List.nodup_cons.mp hnd).1
          intro hcon
          exact hx (hcon ▸ List.mem_map_of_mem UAV.uid h)
        obtain ⟨i, hi, hlook⟩ := ih (n + 1) a h (List.nodup_cons.mp hnd).2
        refine ⟨i, List.mem_cons_of_mem _ hi, ?_⟩
        simp only [List.enumFrom_cons, List.map_cons, alookup]
        rw [if_neg hne]
        exact hlook

/-- `_build_uav_graph` adjacency, characterized: with pairwise-distinct ids,
`b` is adjacent to UAV `a` exactly when `b` is the id of another live UAV
within communication range of `a` (squared comparison). -/
theorem buildUavGraph_adj (uavs : List UAV) (hnd : (uavs.map UAV.uid).Nodup)
    (a : UAV) (ha : a ∈ uavs) (b : Nat) :
    b ∈ adjOf (buildUavGraph uavs) a.uid ↔
      ∃ v ∈ uavs, v.uid = b ∧ v.uid ≠ a.uid ∧
        dist2 a v ≤ uavCommunicationRange ^ 2 := by
  obtain ⟨i, hi, hlook⟩ := alookup_graph_enumFrom
    (fun i u => uavs.enum.filterMap (fun jv =>
      if jv.1 ≠ i ∧ dist2 u jv.2 ≤ uavCommunicationRange ^ 2 then
        some jv.2.uid else none))
    uavs 0 a ha hnd
  have hlook' : alookup (buildUavGraph uavs) a.uid =
      some (uavs.enum.filterMap (fun jv =>
        if jv.1 ≠ i ∧ dist2 a jv.2 ≤ uavCommunicationRange ^ 2 then
          some jv.2.uid else none)) := hlook
  have hadj : adjOf (buildUavGraph uavs) a.uid =
      uavs.enum.filterMap (fun jv =>
        if jv.1 ≠ i ∧ dist2 a jv.2 ≤ uavCommunicationRange ^ 2 then
          some jv.2.uid else none) := by
    unfold adjOf
    rw [hlook']
    rfl
  rw [hadj, List.mem_filterMap]
  constructor
  · rintro ⟨jv, hjv, hf⟩
    by_cases hcond : jv.1 ≠ i ∧ dist2 a jv.2 ≤ uavCommunicationRange ^ 2
    · rw [if_pos hcond] at hf
      injection hf with hf
      refine ⟨jv.2, snd_mem_of_mem_enum hjv, hf, ?_, hcond.2⟩
      intro hcon
      exact hcond.1 (enum_uid_inj uavs hnd hjv hi hcon)
    · rw [if_neg hcond] at hf
      cases hf
  · rintro ⟨v, hv, hb, hne, hdist⟩
    obtain ⟨j, hjlen, hjget⟩ := List.mem_iff_getElem.mp hv
    have hj : (j, v) ∈ uavs.enum := by
      refine List.mk_mem_enum_iff_getElem?.mpr ?_
      rw [List.getElem?_eq_getElem hjlen, hjget]
    refine ⟨(j, v), hj, ?_⟩
    have hji : (j, v).1 ≠ i := by
      intro hcon
      have h1 := List.mk_mem_enum_iff_getElem?.mp hj
      have h2 := List.mk_mem_enum_iff_getElem?.mp hi
      rw [show (j, v).1 = j from rfl] at hcon
      rw [hcon, h2] at h1
      injection h1 with h1
      exact hne (by rw [h1])
    rw [if_pos ⟨hji, hdist⟩, hb]

/-! ## Claim theorems -/

/-- **C9** — `advance_hop` postconditions: for a packet whose next planned
index is in range, `advance_hop(tick)` increments `current_hop_index`, points
`current_holder_id` at `path[current_hop_index]`, clears
`retransmission_count`, and marks delivery — setting `delivery_time` and the
age-of-information to `tick − creation_time` — exactly when the new holder is
the destination, leaving status and the two delivery metrics untouched
otherwise. -/
theorem C9_advance_hop_postconditions (p : Packet) (t : ℚ)
    (h : p.current_hop_index + 1 < p.path.length) :
    (p.advance_hop (some t)).current_hop_index = p.current_hop_index + 1 ∧
    (p.advance_hop (some t)).current_holder_id =
      p.path.get ⟨p.current_hop_index + 1, h⟩ ∧
    (p.advance_hop (some t)).retransmission_count = 0 ∧
    (p.path.get ⟨p.current_hop_index + 1, h⟩ = p.destination_id →
      (p.advance_hop (some t)).status = "delivered" ∧
      (p.advance_hop (some t)).delivery_time = some (t - p.creation_time) ∧
      (p.advance_hop (some t)).aoi = some (t - p.creation_time)) ∧
    (p.path.get ⟨p.current_hop_index + 1, h⟩ ≠ p.destination_id →
      (p.advance_hop (some t)).status = p.status ∧
      (p.advance_hop (some t)).delivery_time = p.delivery_time ∧
      (p.advance_hop (some t)).aoi = p.aoi) := by
  have hget : p.path.getD (p.current_hop_index + 1) p.current_holder_id =
      p.path.get ⟨p.current_hop_index + 1, h⟩ := by
    rw [List.getD_eq_getElem?_getD, List.getElem?_eq_getElem h]
    rfl
  unfold Packet.advance_hop
  dsimp only
  rw [hget]
  by_cases hd : p.path.get ⟨p.current_hop_index + 1, h⟩ = p.destination_id
  · rw [if_pos hd]
    exact ⟨rfl, rfl, rfl, fun _ => ⟨rfl, rfl, rfl⟩, fun hc => absurd hd hc⟩
  · rw [if_neg hd]
    exact ⟨rfl, rfl, rfl, fun hc => absurd hc hd, fun _ => ⟨rfl, rfl, rfl⟩⟩

/-- Witness for C9: `c9pkt` holds `path = [4, 9]`, index `0`, destination
`9`; advancing it at tick `5` delivers it with delivery time and AoI
`5 − 3 = 2`. -/
theorem C9_witness :
    (c9pkt.advance_hop (some 5)).current_hop_index = c9pkt.current_hop_index + 1 ∧
    (c9pkt.advance_hop (some 5)).current_holder_id =
      c9pkt.path.get ⟨c9pkt.current_hop_index + 1, by decide⟩ ∧
    (c9pkt.advance_hop (some 5)).retransmission_count = 0 ∧
    (c9pkt.advance_hop (some 5)).status = "delivered" ∧
    (c9pkt.advance_hop (some 5)).delivery_time = some 2 ∧
    (c9pkt.advance_hop (some 5)).aoi = some 2 := by
  have h := C9_advance_hop_postconditions c9pkt 5 (by decide)
  have hd := h.2.2.2.1 (by decide)
  exact ⟨h.1, h.2.1, h.2.2.1, hd.1, by rw [hd.2.1]; norm_num [c9pkt, Packet.init],
    by rw [hd.2.2]; norm_num [c9pkt, Packet.init]⟩

/-- **C10** — implicit event-type whitelist: `Packet.add_event` leaves the
packet (in particular `event_history`) completely unchanged for every event
type outside the fixed core set that does not start with `fail_` — which is
why the MAC layer's per-hop `success` events and the tree-building wait
events (`cmtp_waiting_tree`, `waiting_tree_construction`,
`waiting_tree_build`, `mtp_waiting_tree`) are silently discarded. -/
theorem C10_event_type_whitelist (cfg : Config) (p : Packet) (ty : String)
    (holder hop : Nat) (t : ℚ) (info : String)
    (hty : ty ∉ coreEvents ∧ ¬ strStartsWith ty "fail_") :
    p.add_event cfg ty holder hop t info = p :=
  addEvent_drop cfg p ty holder hop t info hty

/-- Witness for C10: the `success` event the MAC layer logs on every
successful hop is discarded. -/
theorem C10_witness :
    ("success" ∉ coreEvents ∧ ¬ strStartsWith "success" "fail_") ∧
    c10pkt.add_event defaultConfig "success" 0 0 0 "" = c10pkt :=
  ⟨by decide, C10_event_type_whitelist defaultConfig c10pkt "success" 0 0 0 "" (by decide)⟩

/-- **C1** — the per-tick queue servicing violates its specification (and its
own docstring): `_process_distance_interference_queues` binds the
`(is_successful, fail_reason)` *tuple* returned by `_attempt_transmission` to
`is_successful` without unpacking it, and a non-empty tuple is always truthy
in Python, so even a failed attempt is handled as a success — here the head
sender `0`'s attempt fails its PRR roll (`c1attempt` returns
`(False, "PRR")`), yet the head is popped, its queue is deleted, and the
packet is advanced to the receiver as if the transmission had succeeded.
`_process_collision_queues` contains the same unpacking slip. -/
theorem C1_failed_attempt_dequeues_head :
    c1attempt 0 2 = (false, some "PRR") ∧
    pyTuple2Truthy (c1attempt 0 2) = true ∧
    (processDistanceInterferenceQueues defaultConfig false c1attempt
      c1st).distanceInterferenceQueues = [] ∧
    (processDistanceInterferenceQueues defaultConfig false c1attempt c1st).txQueue 0 = [] ∧
    ((processDistanceInterferenceQueues defaultConfig false c1attempt c1st).txQueue 2).map
      Packet.current_holder_id = [2] := by
  refine ⟨rfl, rfl, ?_, ?_, ?_⟩ <;> decide

/-- **C2** — retry bound and terminal failure: handling a failed attempt for
the packet at the head of its holder's queue never pushes
`retransmission_count` past the configured `MAX_RETRANSMISSIONS`; the moment
the counter reaches the maximum, the packet is removed from the queue (never
to be attempted again, since only queued packets transmit) with status
`failed_Max_Retries(reason)`, and below the maximum it stays at the queue
head.  Hypotheses: the packet heads its sender's queue with a counter still
below the maximum (every packet starts at zero and this invariant is
re-established here and reset by `advance_hop`), outside the CMTP
tree-building stage and the tree-construction wait, which do not count as
attempts. -/
theorem C2_retry_bound_and_terminal_failure (cfg : Config) (st : MacState)
    (senderId : Nat) (p : Packet) (reason : String) (rest : List Packet)
    (hw : strContains reason "Waiting_Tree_Construction" = false)
    (hhead : st.txQueue senderId = p :: rest)
    (hcount : p.retransmission_count < cfg.max_retransmissions) :
    (handleFailure cfg false st senderId p reason).2.retransmission_count ≤
      cfg.max_retransmissions ∧
    ((handleFailure cfg false st senderId p reason).2.retransmission_count =
        cfg.max_retransmissions →
      (handleFailure cfg false st senderId p reason).1.txQueue senderId = rest ∧
      (handleFailure cfg false st senderId p reason).2.status =
        "failed_" ++ ("Max_Retries(" ++ reason ++ ")")) ∧
    ((handleFailure cfg false st senderId p reason).2.retransmission_count <
        cfg.max_retransmissions →
      (handleFailure cfg false st senderId p reason).1.txQueue senderId =
        (handleFailure cfg false st senderId p reason).2 :: rest) := by
  have hcnt_le : handleFailureCount p reason ≤ cfg.max_retransmissions := by
    unfold handleFailureCount
    split_ifs <;> omega
  rw [handleFailure_normal cfg st senderId p reason hw]
  by_cases hterm :
      cfg.max_retransmissions ≤ (handleFailurePacket st p reason).retransmission_count
  · rw [if_pos hterm]
    unfold handleTerminalFailure
    refine ⟨?_, fun _ => ⟨?_, rfl⟩, fun hlt => ?_⟩
    · show (handleFailurePacket st p reason).retransmission_count ≤ _
      rw [handleFailurePacket_count]
      exact hcnt_le
    · show (((st.setTxHead senderId (handleFailurePacket st p reason)).popTxHead
          senderId)).txQueue senderId = rest
      rw [setTxHead_of_head st senderId _ p rest hhead, txQueue_popTxHead_set]
    · exfalso
      have : (handleFailurePacket st p reason).retransmission_count <
          cfg.max_retransmissions := hlt
      omega
  · rw [if_neg hterm]
    rw [handleFailurePacket_count] at hterm
    refine ⟨?_, fun heq => ?_, fun _ => ?_⟩
    · rw [handleFailurePacket_count]
      exact hcnt_le
    · rw [handleFailurePacket_count] at heq
      omega
    · show (st.setTxHead senderId (handleFailurePacket st p reason)).txQueue senderId = _
      rw [setTxHead_of_head st senderId _ p rest hhead, txQueue_setTxQueue_self]

/-- Witness for C2: `c2pkt` (four prior retries, cap ten) fails with reason
`PRR` while heading queue `0` of `c2st`; the handled packet's counter stays
within the cap. -/
theorem C2_witness :
    strContains "PRR" "Waiting_Tree_Construction" = false ∧
    c2st.txQueue 0 = c2pkt :: [] ∧
    c2pkt.retransmission_count < defaultConfig.max_retransmissions ∧
    (handleFailure defaultConfig false c2st 0 c2pkt "PRR").2.retransmission_count ≤
      defaultConfig.max_retransmissions :=
  ⟨by decide, by decide, by decide,
    (C2_retry_bound_and_terminal_failure defaultConfig c2st 0 c2pkt "PRR" []
      (by decide) (by decide) (by decide)).1⟩

/-- **C3** — failure logging is incomplete: the `transmission_fail` events
that `_handle_failure` emits are silently discarded by the `add_event`
whitelist (which lists `max_retries` yet no call site ever emits it), and
`_handle_terminal_failure` records nothing at all — so a packet reaching the
retry cap is dropped with status `failed_Max_Retries(PRR)` while its
`event_history` stays empty: the terminal failure is never recorded. -/
theorem C3_terminal_failure_never_recorded :
    Packet.add_event defaultConfig c3pkt "transmission_fail" 0 0 2 "PRR失败: PRR" = c3pkt ∧
    (handleFailure defaultConfig false c3st 0 c3pkt "PRR").2.status =
      "failed_Max_Retries(PRR)" ∧
    (handleFailure defaultConfig false c3st 0 c3pkt "PRR").2.event_history = [] ∧
    (handleFailure defaultConfig false c3st 0 c3pkt "PRR").1.txQueue 0 = [] := by
  refine ⟨?_, ?_, ?_, ?_⟩ <;> decide

/-- **C5** — path-finder correctness: the proximity graph links `a` to `b`
exactly when `b` is another live UAV within `UAV_COMMUNICATION_RANGE` of `a`
(squared comparison, assuming pairwise-distinct ids); the edge weight is the
active protocol's `get_link_base_delay` when a routing model is configured
and the geometric distance otherwise (both supplied as oracles); the heap
pop always takes an entry minimal in `(dist, entry_count)` lexicographic
order, so at equal cost the earlier-inserted (smaller counter) entry wins
(FIFO); whenever `get_shortest_path` returns a path it is a walk from source
to target of minimum total weight among all walks (for non-negative
weights); and a `"No path found."` answer means no walk of finite weight
exists. -/
theorem C5_shortest_path_dijkstra (uavs : List UAV)
    (w : Nat → Nat → WithTop ℚ) (fuel : Nat) (source target : Nat)
    (hw : ∀ a b, 0 ≤ w a b) :
    ((uavs.map UAV.uid).Nodup → ∀ a ∈ uavs, ∀ b : Nat,
       (b ∈ adjOf (buildUavGraph uavs) a.uid ↔
        ∃ v ∈ uavs, v.uid = b ∧ v.uid ≠ a.uid ∧
          dist2 a v ≤ uavCommunicationRange ^ 2)) ∧
    (∀ (rd gd : UAV → UAV → WithTop ℚ) (a b : Nat) (u1 u2 : UAV),
       uavById uavs a = some u1 → uavById uavs b = some u2 →
       edgeWeightOf (some rd) gd uavs a b = rd u1 u2 ∧
       edgeWeightOf none gd uavs a b = gd u1 u2) ∧
    (∀ (pq : List DijkEntry) (m : DijkEntry) (rest : List DijkEntry),
       popMin pq = some (m, rest) →
       m ∈ pq ∧ rest = pq.erase m ∧
       ∀ e ∈ pq, m.d < e.d ∨ (m.d = e.d ∧ m.cnt ≤ e.cnt)) ∧
    (∀ (graph : List (Nat × List Nat)) (p : List Nat) (msg : String),
       getShortestPath uavs graph w fuel source target = some (some p, msg) →
       IsWalk (adjOf graph) source target p ∧
       ∀ q, IsWalk (adjOf graph) source target q →
         walkWeight w p ≤ walkWeight w q) ∧
    (∀ (graph : List (Nat × List Nat)),
       getShortestPath uavs graph w fuel source target =
         some (none, "No path found.") →
       ∀ q, IsWalk (adjOf graph) source target q → walkWeight w q = ⊤) := by
  have hinv : ∀ graph : List (Nat × List Nat),
      DijkInv w (adjOf graph) source target []
        (fun v => if v = source then 0 else ⊤)
        [{ d := 0, cnt := 0, node := source, path := [source] }] := by
    intro graph
    refine ⟨?_, ?_, ?_, ?_, ?_, ?_, ?_⟩
    · intro e he
      have he' : e = { d := 0, cnt := 0, node := source, path := [source] } :=
        List.mem_singleton.mp he
      subst he'
      refine ⟨isWalk_singleton _ _, rfl, ?_⟩
      show (if source = source then (0 : WithTop ℚ) else ⊤) ≤ 0
      rw [if_pos rfl]
    · intro v hv
      by_cases hvs : v = source
      · subst hvs
        right
        refine ⟨_, List.mem_singleton.mpr rfl, rfl, ?_⟩
        show (0 : WithTop ℚ) = if v = v then 0 else ⊤
        rw [if_pos rfl]
      · exfalso
        rw [if_neg hvs] at hv
        exact lt_irrefl _ hv
    · intro u hu
      cases hu
    · intro u hu
      cases hu
    · intro u hu
      cases hu
    · show (if source = source then (0 : WithTop ℚ) else ⊤) = 0
      rw [if_pos rfl]
    · exact List.not_mem_nil target
  refine ⟨?_, ?_, ?_, ?_, ?_⟩
  · intro hnd a ha b
    exact buildUavGraph_adj uavs hnd a ha b
  · intro rd gd a b u1 u2 h1 h2
    unfold edgeWeightOf
    rw [h1, h2]
    exact ⟨rfl, rfl⟩
  · intro pq m rest h
    exact popMin_spec pq m rest h
  · intro graph p msg h
    unfold getShortestPath at h
    by_cases h1 : uavs.isEmpty
    · rw [if_pos h1] at h
      injection h with h
      exact absurd (congrArg Prod.fst h) (by simp)
    · rw [if_neg h1] at h
      by_cases h2 : ¬ (uavs.map UAV.uid).contains source ∨
          ¬ (uavs.map UAV.uid).contains target
      · rw [if_pos h2] at h
        injection h with h
        exact absurd (congrArg Prod.fst h) (by simp)
      · rw [if_neg h2] at h
        by_cases h3 : source = target
        · rw [if_pos h3] at h
          injection h with h
          have hp : some [source] = some p := congrArg Prod.fst h
          injection hp with hp
          subst hp
          constructor
          · rw [← h3]
            exact isWalk_singleton _ _
          · intro q _
            show (0 : WithTop ℚ) ≤ walkWeight w q
            exact walkWeight_nonneg w hw q
        · rw [if_neg h3] at h
          cases hloop : dijkstraLoop w (adjOf graph) target fuel
              (fun v => if v = source then 0 else ⊤) 0
              [{ d := 0, cnt := 0, node := source, path := [source] }] with
          | none =>
              rw [hloop] at h
              cases h
          | some res =>
              rw [hloop] at h
              obtain ⟨hc1, hc2⟩ := dijkstraLoop_correct w (adjOf graph) source
                target hw fuel [] (fun v => if v = source then 0 else ⊤) 0
                [{ d := 0, cnt := 0, node := source, path := [source] }]
                (hinv graph) res hloop
              cases res with
              | none =>
                  dsimp only at h
                  injection h with h
                  exact absurd (congrArg Prod.fst h) (by simp)
              | some pd =>
                  obtain ⟨p', d⟩ := pd
                  dsimp only at h
                  injection h with h
                  have hp : some p' = some p := congrArg Prod.fst h
                  injection hp with hp
                  subst hp
                  obtain ⟨hwalk, hweight, hmin2⟩ := hc2 p' d rfl
                  refine ⟨hwalk, ?_⟩
                  intro q hq
                  rw [hweight]
                  exact hmin2 q hq
  · intro graph h
    unfold getShortestPath at h
    by_cases h1 : uavs.isEmpty
    · rw [if_pos h1] at h
      injection h with h
      have := congrArg Prod.snd h
      exact absurd this (by decide)
    · rw [if_neg h1] at h
      by_cases h2 : ¬ (uavs.map UAV.uid).contains source ∨
          ¬ (uavs.map UAV.uid).contains target
      · rw [if_pos h2] at h
        injection h with h
        have := congrArg Prod.snd h
        exact absurd this (by decide)
      · rw [if_neg h2] at h
        by_cases h3 : source = target
        · rw [if_pos h3] at h
          injection h with h
          exact absurd (congrArg Prod.fst h) (by simp)
        · rw [if_neg h3] at h
          cases hloop : dijkstraLoop w (adjOf graph) target fuel
              (fun v => if v = source then 0 else ⊤) 0
              [{ d := 0, cnt := 0, node := source, path := [source] }] with
          | none =>
              rw [hloop] at h
              cases h
          | some res =>
              rw [hloop] at h
              obtain ⟨hc1, _⟩ := dijkstraLoop_correct w (adjOf graph) source
                target hw fuel [] (fun v => if v = source then 0 else ⊤) 0
                [{ d := 0, cnt := 0, node := source, path := [source] }]
                (hinv graph) res hloop
              cases res with
              | none => exact hc1 rfl
              | some pd =>
                  obtain ⟨p', d⟩ := pd
                  dsimp only at h
                  injection h with h
                  exact absurd (congrArg Prod.fst h) (by simp)

/-- **C5** (witness) — the path-finder theorem applied to three collinear
UAVs under the constant unit weight, whose non-negativity discharges the
hypothesis; the id list is concretely duplicate-free. -/
theorem C5_shortest_path_dijkstra_witness :
    (c8uavs.map UAV.uid).Nodup ∧
    ((c8uavs.map UAV.uid).Nodup → ∀ a ∈ c8uavs, ∀ b : Nat,
       (b ∈ adjOf (buildUavGraph c8uavs) a.uid ↔
        ∃ v ∈ c8uavs, v.uid = b ∧ v.uid ≠ a.uid ∧
          dist2 a v ≤ uavCommunicationRange ^ 2)) :=
  ⟨by decide, (C5_shortest_path_dijkstra c8uavs (fun _ _ => 1) 10 1 3
    (fun _ _ => zero_le_one)).1⟩

/-- **C4** — create-transfer error atomicity: when the path finder reports
no path (or any other error), `initiate_data_transfer` returns the empty
packet list with that message and the simulation state unchanged — no packet
object is created; when a path is found (and the source resolves, as it must
after the path check), exactly `packet_count` packets are created, each
`in_transit` on the computed path between the requested endpoints, appended
in order to the global packet list and to the source UAV's transmit
queue, with the UAV list and graph untouched. -/
theorem C4_create_transfer_atomic (cfg : Config) (w : Nat → Nat → WithTop ℚ)
    (fuel : Nat) (src dst count : Nat) (st : SimState) :
    (∀ msg, getShortestPath st.uavs st.uav_graph w fuel src dst =
        some (none, msg) →
      initiateDataTransfer cfg w fuel src dst count st =
        some (([], msg), st)) ∧
    (∀ path_ids m su,
      getShortestPath st.uavs st.uav_graph w fuel src dst =
        some (some path_ids, m) →
      uavById st.uavs src = some su →
      ∃ pkts st',
        initiateDataTransfer cfg w fuel src dst count st =
          some ((pkts, "packet(s) created."), st') ∧
        pkts.length = count ∧
        (∀ p ∈ pkts, p.path = path_ids ∧ p.status = "in_transit" ∧
          p.source_id = src ∧ p.destination_id = dst) ∧
        st'.packets_in_network = st.packets_in_network ++ pkts ∧
        st'.txQueue src = st.txQueue src ++ pkts ∧
        st'.uavs = st.uavs ∧ st'.uav_graph = st.uav_graph) := by
  constructor
  · intro msg h
    unfold initiateDataTransfer
    rw [h]
  · intro path_ids m su hpath hsu
    unfold initiateDataTransfer
    rw [hpath]
    dsimp only
    rw [hsu]
    dsimp only
    obtain ⟨pkts, h2, hlen, hgood, hnet, hq, huavs, hgraph⟩ :=
      createLoop_go cfg src dst path_ids (List.range count) st []
    rw [List.length_range] at hlen
    rw [List.nil_append] at h2
    refine ⟨pkts, ((List.range count).foldl
      (createStep cfg src dst path_ids) (st, [])).1, ?_, hlen, hgood, ?_, ?_,
      huavs, hgraph⟩
    · rw [h2]
    · rw [hnet]
    · rw [hq]

/-- **C6** — tree-variant hold semantics: after the state refresh that
`select_next_hop` performs, a protocol that has started construction but is
not yet ready returns no next hop (`none`), for every caller and candidate
set, in both the MTP and the CMTP variant; the protocol becomes `Ready`
exactly through `update_protocol_status` once the elapsed simulated time
reaches the configured build duration (with the `1e-6` tolerance in MTP, the
exact comparison and a hard `0.1 s` throttle in CMTP, and at least one
destination group so that a tree exists); and any hop the ready protocol
returns is a candidate of minimal expected transmission time — over the
pruned neighbour set for MTP with pruning, over the caller's candidates
otherwise. -/
theorem C6_building_holds_ready_min_ett (tp : Bool) (cfg : Config)
    (o : TreeOracles) (uavs : List UAV) (st : TreeProtocolState) (cur : UAV)
    (cands : List UAV) (did : Option Nat) (t : Option ℚ) :
    ((mtpUpdateProtocolStatus tp cfg o uavs st (did.map fun d => [d]) t).tree_construction_started ∧
      ¬ (mtpUpdateProtocolStatus tp cfg o uavs st (did.map fun d => [d]) t).tree_ready →
      (mtpSelectNextHop tp cfg o uavs st cur cands did t).2.1 = none) ∧
    ((cmtpUpdateProtocolStatus cfg o uavs st (did.map fun d => [d]) t).tree_construction_started ∧
      ¬ (cmtpUpdateProtocolStatus cfg o uavs st (did.map fun d => [d]) t).tree_ready →
      (cmtpSelectNextHop cfg o uavs st cur cands did t).2.1 = none) ∧
    (∀ curt t0 T, st.tree_ready = false → st.tree_construction_started = true →
      st.destination_list ≠ [] → st.tree_build_start_time = some t0 →
      st.min_tree_build_time = some T → T ≤ curt - t0 + 1/1000000 →
      groupRootsByDistance uavs st.destination_list ≠ [] →
      (mtpUpdateProtocolStatus tp cfg o uavs st none (some curt)).tree_ready = true) ∧
    (∀ curt t0 T, st.tree_ready = false → st.tree_construction_started = true →
      st.destination_list ≠ [] → st.tree_build_start_time = some t0 →
      st.min_tree_build_time = some T → T ≤ curt - t0 →
      (∀ lu, st.last_update_time = some lu → 1/10 ≤ curt - lu) →
      groupRootsByDistance uavs st.destination_list ≠ [] →
      (cmtpUpdateProtocolStatus cfg o uavs st none (some curt)).tree_ready = true) ∧
    (∀ c, (mtpSelectNextHop tp cfg o uavs st cur cands did t).2.1 = some c →
      c ∈ mtpSelectPool tp o uavs cur cands did ∧
      ∀ x ∈ mtpSelectPool tp o uavs cur cands did,
        calculateExpectedTransmissionTime o uavs
          (mtpUpdateProtocolStatus tp cfg o uavs st (did.map fun d => [d]) t).congestion_links
          cur c ≤
        calculateExpectedTransmissionTime o uavs
          (mtpUpdateProtocolStatus tp cfg o uavs st (did.map fun d => [d]) t).congestion_links
          cur x) ∧
    (∀ c, (cmtpSelectNextHop cfg o uavs st cur cands did t).2.1 = some c →
      c ∈ cands ∧
      ∀ x ∈ cands,
        calculateExpectedTransmissionTime o uavs
          (cmtpUpdateProtocolStatus cfg o uavs st (did.map fun d => [d]) t).congestion_links
          cur c ≤
        calculateExpectedTransmissionTime o uavs
          (cmtpUpdateProtocolStatus cfg o uavs st (did.map fun d => [d]) t).congestion_links
          cur x) := by
  refine ⟨?_, ?_, ?_, ?_, ?_, ?_⟩
  · intro hhold
    have hsel : mtpSelectNextHop tp cfg o uavs st cur cands did t =
        (mtpUpdateProtocolStatus tp cfg o uavs st (did.map fun d => [d]) t,
         none, ⊤) := by
      unfold mtpSelectNextHop
      dsimp only
      rw [if_pos hhold]
    rw [hsel]
  · intro hhold
    have hsel : cmtpSelectNextHop cfg o uavs st cur cands did t =
        (cmtpUpdateProtocolStatus cfg o uavs st (did.map fun d => [d]) t,
         none, ⊤) := by
      unfold cmtpSelectNextHop
      dsimp only
      rw [if_pos hhold]
    rw [hsel]
  · intro curt t0 T hready hstarted hdl hstart hmin hswitch hgroups
    unfold mtpUpdateProtocolStatus
    dsimp only
    simp only [Option.getD_some]
    set st1 := { st with last_update_time := some curt } with hst1
    obtain ⟨l, hl, hlne⟩ := bvts_trees_ne_nil tp cfg o uavs
      st1 (some st.destination_list) none hgroups
    have hreadyB : (buildVirtualTreeStructures tp cfg o uavs
        st1 (some st.destination_list) none).tree_ready = false :=
      (bvts_fields tp cfg o uavs _ _ _).1.trans
        (by rw [hst1]; exact hready)
    rw [Bool.false_and, if_neg Bool.false_ne_true, hready,
      if_neg Bool.false_ne_true, if_pos (⟨hstarted, hdl⟩ :
        st.tree_construction_started = true ∧ st.destination_list ≠ []),
      hstart]
    dsimp only
    rw [hmin]
    dsimp only
    rw [decide_eq_true (ge_iff_le.mpr hswitch)]
    simp only [Bool.not_true, Bool.and_false, Bool.false_and]
    rw [if_neg Bool.false_ne_true]
    cases l with
    | nil => exact absurd rfl hlne
    | cons h tl =>
        rw [hl]
        dsimp only
        rw [if_pos (⟨ge_iff_le.mpr hswitch, by rw [hreadyB]; exact
          Bool.false_ne_true⟩ : (curt - t0 + 1/1000000 ≥ T) ∧
            ¬ (buildVirtualTreeStructures tp cfg o uavs
              st1 (some st.destination_list) none).tree_ready = true)]
  · intro curt t0 T hready hstarted hdl hstart hmin hswitch hthr hgroups
    unfold cmtpUpdateProtocolStatus
    dsimp only
    simp only [Option.getD_some]
    set st1 := { st with last_update_time := some curt } with hst1
    obtain ⟨l, hl, hlne⟩ := bvts_trees_ne_nil false cfg o uavs
      st1 (some st.destination_list) none hgroups
    have hreadyB : (buildVirtualTreeStructures false cfg o uavs
        st1 (some st.destination_list) none).tree_ready = false :=
      (bvts_fields false cfg o uavs _ _ _).1.trans
        (by rw [hst1]; exact hready)
    have hminB : (buildVirtualTreeStructures false cfg o uavs
        st1 (some st.destination_list) none).min_tree_build_time = some T :=
      (bvts_fields false cfg o uavs _ _ _).2.trans
        (by rw [hst1]; exact hmin)
    rw [Bool.false_and, if_neg Bool.false_ne_true, hready,
      if_neg Bool.false_ne_true, if_pos (⟨hstarted, hdl⟩ :
        st.tree_construction_started = true ∧ st.destination_list ≠ []),
      hstart]
    dsimp only
    have hthrottled : (match st.last_update_time with
        | some lu => decide (curt - lu < 1/10)
        | none => false) = false := by
      cases hlu : st.last_update_time with
      | none => rfl
      | some lu => exact decide_eq_false (not_lt.mpr (hthr lu hlu))
    rw [hthrottled, if_neg Bool.false_ne_true]
    rw [hminB]
    dsimp only
    cases l with
    | nil => exact absurd rfl hlne
    | cons h tl =>
        rw [hl]
        dsimp only
        rw [if_pos (⟨ge_iff_le.mpr hswitch, by rw [hreadyB]; exact
          Bool.false_ne_true⟩ : (curt - t0 ≥ T) ∧
            ¬ (buildVirtualTreeStructures false cfg o uavs
              st1 (some st.destination_list) none).tree_ready = true)]
  · intro c hc
    by_cases hhold :
        (mtpUpdateProtocolStatus tp cfg o uavs st (did.map fun d => [d]) t).tree_construction_started ∧
        ¬ (mtpUpdateProtocolStatus tp cfg o uavs st (did.map fun d => [d]) t).tree_ready
    · have hsel : mtpSelectNextHop tp cfg o uavs st cur cands did t =
          (mtpUpdateProtocolStatus tp cfg o uavs st (did.map fun d => [d]) t,
           none, ⊤) := by
        unfold mtpSelectNextHop
        dsimp only
        rw [if_pos hhold]
      rw [hsel] at hc
      exact absurd hc (by simp)
    · have hsel : mtpSelectNextHop tp cfg o uavs st cur cands did t =
          (mtpUpdateProtocolStatus tp cfg o uavs st (did.map fun d => [d]) t,
           (minEttFold (fun nb => calculateExpectedTransmissionTime o uavs
              (mtpUpdateProtocolStatus tp cfg o uavs st
                (did.map fun d => [d]) t).congestion_links cur nb)
             (mtpSelectPool tp o uavs cur cands did)).2,
           (minEttFold (fun nb => calculateExpectedTransmissionTime o uavs
              (mtpUpdateProtocolStatus tp cfg o uavs st
                (did.map fun d => [d]) t).congestion_links cur nb)
             (mtpSelectPool tp o uavs cur cands did)).1) := by
        unfold mtpSelectNextHop
        dsimp only
        rw [if_neg hhold]
      rw [hsel] at hc
      obtain ⟨hmem, _, hmin⟩ := (minEttFold_spec
        (fun nb => calculateExpectedTransmissionTime o uavs
          (mtpUpdateProtocolStatus tp cfg o uavs st
            (did.map fun d => [d]) t).congestion_links cur nb)
        (mtpSelectPool tp o uavs cur cands did)).1 c hc
      exact ⟨hmem, hmin⟩
  · intro c hc
    by_cases hhold :
        (cmtpUpdateProtocolStatus cfg o uavs st (did.map fun d => [d]) t).tree_construction_started ∧
        ¬ (cmtpUpdateProtocolStatus cfg o uavs st (did.map fun d => [d]) t).tree_ready
    · have hsel : cmtpSelectNextHop cfg o uavs st cur cands did t =
          (cmtpUpdateProtocolStatus cfg o uavs st (did.map fun d => [d]) t,
           none, ⊤) := by
        unfold cmtpSelectNextHop
        dsimp only
        rw [if_pos hhold]
      rw [hsel] at hc
      exact absurd hc (by simp)
    · have hsel : cmtpSelectNextHop cfg o uavs st cur cands did t =
          (cmtpUpdateProtocolStatus cfg o uavs st (did.map fun d => [d]) t,
           (minEttFold (fun nb => calculateExpectedTransmissionTime o uavs
              (cmtpUpdateProtocolStatus cfg o uavs st
                (did.map fun d => [d]) t).congestion_links cur nb) cands).2,
           (minEttFold (fun nb => calculateExpectedTransmissionTime o uavs
              (cmtpUpdateProtocolStatus cfg o uavs st
                (did.map fun d => [d]) t).congestion_links cur nb) cands).1) := by
        unfold cmtpSelectNextHop
        dsimp only
        rw [if_neg hhold]
      rw [hsel] at hc
      obtain ⟨hmem, _, hmin⟩ := (minEttFold_spec
        (fun nb => calculateExpectedTransmissionTime o uavs
          (cmtpUpdateProtocolStatus cfg o uavs st
            (did.map fun d => [d]) t).congestion_links cur nb) cands).1 c hc
      exact ⟨hmem, hmin⟩

/-- **C8** (counterexample to the claim as stated) — three collinear
destinations 10 apart all land in one group (each is within the threshold of
the *seed* 1, even though 1 and 3 are 20 apart only because grouping is
seed-based, not pairwise); the elected virtual root is the first member 1,
while the group member closest to the centroid — what the spec elects — is
2. -/
theorem C8_counterexample :
    groupRootsByDistance c8uavs [1, 2, 3] = [[1, 2, 3]] ∧
    (buildVirtualTreeStructures false defaultConfig c8o c8uavs
        TreeProtocolState.init (some [1, 2, 3]) none).root_nodes = some [1] ∧
    centroidNearestMember c8uavs [1, 2, 3] = some 2 := by
  have hg : groupRootsByDistance c8uavs [1, 2, 3] = [[1, 2, 3]] := by
    norm_num [groupRootsByDistance, groupOuterStep, groupInnerStep, c8uavs,
      uavById, dist2, mergeDistanceThreshold, List.enum, List.enumFrom,
      List.find?]
  refine ⟨hg, ?_, ?_⟩
  · have hr := (bvts_root_fields false defaultConfig c8o c8uavs
      TreeProtocolState.init (some [1, 2, 3]) none).2
    simp only [Option.getD_some] at hr
    rw [hg] at hr
    rw [hr]
    decide
  · norm_num [centroidNearestMember, c8uavs, uavById, dist2, List.find?,
      List.filterMap]

/-- **C8** (amended) — `build_virtual_tree_structures` records the group
list produced by `_group_roots_by_distance` and elects, as each group's
virtual root, the group's *first member* (its seed); every group consists of
a destination seed followed by the later unused destinations strictly within
the merge threshold of that seed.  No centroid is computed anywhere: the
spec-worded `centroidNearestMember` election disagrees with the code (see
the counterexample). -/
theorem C8_virtual_root_is_group_seed (tp : Bool) (cfg : Config)
    (o : TreeOracles) (uavs : List UAV) (st : TreeProtocolState)
    (dest_ids : Option (List Nat)) (sid : Option Nat) :
    ((buildVirtualTreeStructures tp cfg o uavs st dest_ids sid).root_groups =
       some (groupRootsByDistance uavs (dest_ids.getD (uavs.map UAV.uid)))) ∧
    ((buildVirtualTreeStructures tp cfg o uavs st dest_ids sid).root_nodes =
       some ((groupRootsByDistance uavs
         (dest_ids.getD (uavs.map UAV.uid))).filterMap List.head?)) ∧
    (∀ dl : List Nat, ∀ g ∈ groupRootsByDistance uavs dl, seedGroup uavs dl g) :=
  ⟨(bvts_root_fields tp cfg o uavs st dest_ids sid).1,
   (bvts_root_fields tp cfg o uavs st dest_ids sid).2,
   fun dl g hg => groupOuter_inv uavs dl dl.enum ([], [])
     (fun _ hj => snd_mem_of_mem_enum hj)
     (fun g hg => absurd hg (List.not_mem_nil g)) g hg⟩

/-- **C7** (counterexample to the claim as stated) — the active
`PTPRoutingModel` does not maximize the plain difference
`eod(node, dest) − eod(candidate, dest)`: with the committed
`PRR_MIN = 0.5`, `PRR_MAX = 0.9` it adds a `0.3`-weighted PRR bonus, so on
`c7all` it selects `c7b` even though `c7a` has the strictly larger plain
difference (which the spec-worded `specUtilityBest`, matching the older
`RoutingModel` variant, duly selects). -/
theorem C7_counterexample :
    (ptpSelectNextHopWithUtility prrMinCfg prrMaxCfg c7eod c7prr c7conc
        c7cur c7dest c7all none).1 = some c7b ∧
    specUtilityBest c7eod c7cur c7dest
        (ptpCandidateFilter c7conc c7cur c7all none) = some c7a ∧
    c7eod c7cur c7dest - c7eod c7b c7dest <
      c7eod c7cur c7dest - c7eod c7a c7dest := by
  refine ⟨?_, ?_, ?_⟩ <;>
    norm_num [ptpSelectNextHopWithUtility, ptpCandidateFilter, maxUtilityFold,
      maxStep, ptpUtility, specUtilityBest, c7eod, c7prr, c7conc, c7cur, c7a,
      c7b, c7dest, c7all, dist2xy, uavCommunicationRange, prrMinCfg, prrMaxCfg,
      List.filter, List.foldl]

/-- **C7** (amended) — `select_next_hop_with_utility` keeps exactly the
candidates that are distinct from the current node, within communication
range now and after the `0.4 s` velocity look-ahead, and not concurrent with
any *other* active sending vector; among those it selects a candidate of
maximal utility `eod(node, dest) − eod(candidate, dest) + prr_weight ·
prr(node, candidate)` where `prr_weight` is `0.5` when the configured average
PRR is below `0.3` and `0.3` otherwise; and it selects one whenever the
filtered pool is non-empty. -/
theorem C7_ptp_weighted_utility_selection (prr_min prr_max : ℚ)
    (eod prr : UAV → UAV → ℚ)
    (concurrent : (ℚ × ℚ) × (ℚ × ℚ) → (ℚ × ℚ) × (ℚ × ℚ) → Bool)
    (cur dest : UAV) (alls : List UAV)
    (vecs : Option (List ((ℚ × ℚ) × (ℚ × ℚ)))) :
    (∀ nb, nb ∈ ptpCandidateFilter concurrent cur alls vecs ↔
       (nb ∈ alls ∧ nb.uid ≠ cur.uid ∧
        dist2xy cur nb ≤ uavCommunicationRange ^ 2 ∧
        ((cur.x + cur.vx * (2/5)) - (nb.x + nb.vx * (2/5))) ^ 2 +
          ((cur.y + cur.vy * (2/5)) - (nb.y + nb.vy * (2/5))) ^ 2 ≤
          uavCommunicationRange ^ 2 ∧
        ∀ vs, vecs = some vs → ∀ ov ∈ vs,
          ov ≠ ((cur.x, cur.y), (nb.x, nb.y)) →
          concurrent ((cur.x, cur.y), (nb.x, nb.y)) ov = false)) ∧
    (∀ c, (ptpSelectNextHopWithUtility prr_min prr_max eod prr concurrent
        cur dest alls vecs).1 = some c →
      c ∈ ptpCandidateFilter concurrent cur alls vecs ∧
      ∀ nb ∈ ptpCandidateFilter concurrent cur alls vecs,
        ptpUtility eod prr
            (if (prr_min + prr_max) / 2 < 3/10 then 1/2 else 3/10) cur dest nb ≤
        ptpUtility eod prr
            (if (prr_min + prr_max) / 2 < 3/10 then 1/2 else 3/10) cur dest c) ∧
    (ptpCandidateFilter concurrent cur alls vecs ≠ [] →
      ∃ c, (ptpSelectNextHopWithUtility prr_min prr_max eod prr concurrent
        cur dest alls vecs).1 = some c) := by
  have hdef : ptpSelectNextHopWithUtility prr_min prr_max eod prr concurrent
      cur dest alls vecs =
      maxUtilityFold
        (fun nb => ptpUtility eod prr
          (if (prr_min + prr_max) / 2 < 3/10 then 1/2 else 3/10) cur dest nb)
        (ptpCandidateFilter concurrent cur alls vecs) := rfl
  refine ⟨?_, ?_, ?_⟩
  · intro nb
    cases vecs with
    | none =>
        simp only [ptpCandidateFilter, List.mem_filter, Bool.and_eq_true,
          decide_eq_true_eq, Bool.and_true]
        constructor
        · rintro ⟨hmem, ⟨h1, h2⟩, h3⟩
          exact ⟨hmem, h1, h2, h3, fun vs hvs => by cases hvs⟩
        · rintro ⟨hmem, h1, h2, h3, _⟩
          exact ⟨hmem, ⟨h1, h2⟩, h3⟩
    | some vs =>
        simp only [ptpCandidateFilter, List.mem_filter, Bool.and_eq_true,
          decide_eq_true_eq]
        constructor
        · rintro ⟨hmem, ⟨⟨h1, h2⟩, h3⟩, h4⟩
          refine ⟨hmem, h1, h2, h3, ?_⟩
          intro vs' hvs' ov hov hne
          injection hvs' with hvv
          subst hvv
          have hno : vs.any (fun ov =>
              decide (ov ≠ ((cur.x, cur.y), (nb.x, nb.y))) &&
              concurrent ((cur.x, cur.y), (nb.x, nb.y)) ov) = false := by
            cases hvb : vs.any (fun ov =>
                decide (ov ≠ ((cur.x, cur.y), (nb.x, nb.y))) &&
                concurrent ((cur.x, cur.y), (nb.x, nb.y)) ov) with
            | false => rfl
            | true => rw [hvb] at h4; exact Bool.noConfusion h4
          have hne' : (decide (ov ≠ ((cur.x, cur.y), (nb.x, nb.y))) &&
              concurrent ((cur.x, cur.y), (nb.x, nb.y)) ov) = false := by
            cases hcase : (decide (ov ≠ ((cur.x, cur.y), (nb.x, nb.y))) &&
                concurrent ((cur.x, cur.y), (nb.x, nb.y)) ov) with
            | false => rfl
            | true =>
                have hyes : vs.any (fun ov =>
                    decide (ov ≠ ((cur.x, cur.y), (nb.x, nb.y))) &&
                    concurrent ((cur.x, cur.y), (nb.x, nb.y)) ov) = true :=
                  List.any_eq_true.mpr ⟨ov, hov, hcase⟩
                rw [hyes] at hno
                cases hno
          rw [decide_eq_true hne, Bool.true_and] at hne'
          exact hne'
        · rintro ⟨hmem, h1, h2, h3, h4⟩
          refine ⟨hmem, ⟨⟨h1, h2⟩, h3⟩, ?_⟩
          have hfalse : vs.any (fun ov =>
              decide (ov ≠ ((cur.x, cur.y), (nb.x, nb.y))) &&
              concurrent ((cur.x, cur.y), (nb.x, nb.y)) ov) = false := by
            rw [List.any_eq_false]
            intro ov hov
            by_cases hov2 : ov = ((cur.x, cur.y), (nb.x, nb.y))
            · subst hov2; simp
            · have hc := h4 vs rfl ov hov hov2
              simp [hc]
          rw [hfalse]
          rfl
  · intro c hc
    rw [hdef] at hc
    by_cases hnil : ptpCandidateFilter concurrent cur alls vecs = []
    · rw [hnil, maxUtilityFold_nil] at hc
      cases hc
    · obtain ⟨c', hc', hmem, hmax⟩ := maxUtilityFold_spec _ _ hnil
      rw [hc'] at hc
      injection hc with h
      subst h
      exact ⟨hmem, hmax⟩
  · intro hnil
    obtain ⟨c', hc', _, _⟩ := maxUtilityFold_spec
      (fun nb => ptpUtility eod prr
        (if (prr_min + prr_max) / 2 < 3/10 then 1/2 else 3/10) cur dest nb)
      _ hnil
    exact ⟨c', by rw [hdef]; exact hc'⟩

end UAVDemo
